import Mathlib

set_option maxHeartbeats 1600000

/- Shallow embedding of src/simulator.py: a buddy-allocator page arena
   (`BuddySystem`) together with a two-list (active/inactive) LRU reclaimer and
   the trace controller, merged into one state type `Sim`.  Python exceptions
   (ValueError from `math.log2(0)`, KeyError/IndexError on dict/list subscripts,
   NameError from the unbound loop variable in `reclaim_n_pages`) are modelled
   by `Option` results (`none` = the event raises).  Python ints are `Int`
   (page-slot contents, page ids, seqnos) or `Nat` (indices, counts); all
   recursion is structural (fuel where the source loop is not), so every
   definition evaluates by kernel reduction. -/

/-- Fuel-based floor-log2: models Python `int(math.log2 n)` as used by
    `BuddySystem.__init__` (exact for the arguments the simulator uses). -/
def flog2f : Nat → Nat → Nat
  | 0, _ => 0
  | f+1, n => if 2 ≤ n then flog2f f (n / 2) + 1 else 0

def flog2 (n : Nat) : Nat := flog2f n n

/-- Fuel-based ceiling-log2: models `math.ceil(math.log2 n)` in
    `request_pages`; the `n = 0` case (where Python raises ValueError)
    is handled at the call site. -/
def clog2f : Nat → Nat → Nat
  | 0, _ => 0
  | f+1, n => if n ≤ 1 then 0 else clog2f f ((n + 1) / 2) + 1

def clog2 (n : Nat) : Nat := clog2f n n

/-- Lookup in the insertion-ordered map modelling the Python dict
    `allocated_pages` (`seqno -> [allocated page ids]`). -/
def dictGet (d : List (Int × List Int)) (k : Int) : Option (List Int) :=
  d.lookup k

/-- Update-or-append for the insertion-ordered map, matching Python dict
    assignment `d[k] = v`. -/
def dictSet (d : List (Int × List Int)) (k : Int) (v : List Int) :
    List (Int × List Int) :=
  if d.any (fun kv => kv.1 == k) then
    d.map (fun kv => if kv.1 == k then (k, v) else kv)
  else d ++ [(k, v)]

/-- State of the buddy allocator (`class BuddySystem`). `pages` is the page
    slot array (-1 = free, otherwise the owning seqno); `buddy_lists i` holds
    the start ids of free blocks of length `2^i`; `allocated_pages` maps a
    seqno to its ordered allocation record. -/
structure BuddySystem where
  buddy_count : Nat
  buddy_lists : List (List Nat)
  pages : List Int
  allocated_pages : List (Int × List Int)
deriving DecidableEq, Repr

namespace BuddySystem

/-- `BuddySystem.__init__`: `buddy_count = int(log2 MAX_PAGENO) + 1`, all
    pages free, and the single top-order block 0 registered
    (`buddy_lists[-1].append(0)`). -/
def init (MAX_PAGENO : Nat) : BuddySystem :=
  let c := flog2 MAX_PAGENO + 1
  { buddy_count := c
    buddy_lists := (List.replicate c ([] : List Nat)).set (c - 1) [0]
    pages := List.replicate MAX_PAGENO (-1 : Int)
    allocated_pages := [] }

/-- The loop body of `partition_and_return`: walk the binary representation of
    `length` from the least significant bit (`bin(length)[2:][::-1]`), and for
    every set bit `j` append the current start id to `buddy_lists[j]` and
    advance the start id by `2^j`.  `fuel` bounds the number of halvings. -/
def partAux : Nat → List (List Nat) → Nat → Nat → Nat → List (List Nat)
  | 0, bl, _, _, _ => bl
  | fuel+1, bl, start_id, length, j =>
    if length = 0 then bl
    else if length % 2 = 1 then
      partAux fuel (bl.set j (bl.getD j [] ++ [start_id])) (start_id + 2 ^ j)
        (length / 2) (j + 1)
    else partAux fuel bl start_id (length / 2) (j + 1)

/-- `partition_and_return`: split a free block into power-of-two chunks and
    register them. -/
def partition_and_return (bl : List (List Nat)) (start_id length : Nat) :
    List (List Nat) :=
  partAux length bl start_id length 0

/-- The scan loop of `update_buddy_lists` over the page array; `p1`/`p2` and
    the (never reset) `started` flag are exactly the Python locals.  The
    element being inspected is the head of `rest`, at absolute index `p2`. -/
def updateBuddyLoop :
    List (List Nat) → List Int → Nat → Nat → Bool → List (List Nat)
  | bl, [], p1, p2, started =>
    if started then partition_and_return bl p1 (p2 - p1) else bl
  | bl, x :: xs, p1, p2, started =>
    if x < 0 then updateBuddyLoop bl xs p1 (p2 + 1) true
    else if started then
      updateBuddyLoop (partition_and_return bl p1 (p2 - p1)) xs (p2 + 1)
        (p2 + 1) true
    else updateBuddyLoop bl xs (p1 + 1) (p2 + 1) started

/-- The free lists produced by a full rebuild from a page array:
    `update_buddy_lists` first clears all `buddy_count` lists, then runs the
    scan with `p1 = p2 = 0`, `started = False`. -/
def rebuildLists (c : Nat) (pages : List Int) : List (List Nat) :=
  updateBuddyLoop (List.replicate c ([] : List Nat)) pages 0 0 false

/-- `update_buddy_lists`: rebuild `buddy_lists` from the current `pages`. -/
def update_buddy_lists (b : BuddySystem) : BuddySystem :=
  { b with buddy_lists := rebuildLists b.buddy_count b.pages }

/-- The search loop of `request_pages`: `for i in range(idx, buddy_count)`,
    pop the head of the first non-empty list.  The second argument is the
    current order `i`, the third the remaining number of orders to try. -/
def popFB : List (List Nat) → Nat → Nat → Option (Nat × List (List Nat))
  | _, _, 0 => none
  | bl, i, rem + 1 =>
    match bl.getD i [] with
    | [] => popFB bl (i + 1) rem
    | s :: rest => some (s, bl.set i rest)

/-- Mark pages `[start, start+num)` with `seqno`
    (`for p in range(alloc_start_id, alloc_start_id+num): pages[p] = seqno`). -/
def markRange (pages : List Int) (start num : Nat) (seqno : Int) : List Int :=
  (List.range' start num).foldl (fun pg p => pg.set p seqno) pages

/-- The discontiguous-allocation scan of `request_pages`: walk the page array
    from the head (absolute index `i`), claim every slot equal to -1, and stop
    once `need` pages were claimed (the source enters this loop only with
    `need ≥ 1`; `need = 0` is unreachable there).  Returns the updated page
    array and the claimed ids. -/
def discontLoop (seqno : Int) : List Int → Nat → Nat → List Int × List Nat
  | [], _, _ => ([], [])
  | x :: xs, _, 0 => (x :: xs, [])
  | x :: xs, i, need + 1 =>
    if x = -1 then
      if need = 0 then (seqno :: xs, [i])
      else
        let r := discontLoop seqno xs (i + 1) need
        (seqno :: r.1, i :: r.2)
    else
      let r := discontLoop seqno xs (i + 1) (need + 1)
      (x :: r.1, r.2)

/-- `request_pages(seqno, num)`: try a contiguous block of order
    `ceil(log2 num)` or above; otherwise claim free slots one by one; always
    rebuild the free lists before returning.  `num = 0` makes Python raise
    ValueError in `math.log2`, modelled as `none`. -/
def request_pages (b : BuddySystem) (seqno : Int) (num : Nat) :
    Option (List Nat × BuddySystem) :=
  if num = 0 then none
  else
    let idx := clog2 num
    match popFB b.buddy_lists idx (b.buddy_count - idx) with
    | some (alloc_start_id, bl') =>
      let pages' := markRange b.pages alloc_start_id num seqno
      let alloc_ids := List.range' alloc_start_id num
      some (alloc_ids,
        update_buddy_lists { b with buddy_lists := bl', pages := pages' })
    | none =>
      let r := discontLoop seqno b.pages 0 num
      some (r.2, update_buddy_lists { b with pages := r.1 })

/-- `allocate(page_ids, seqno, idx)`: with `idx = None` install the whole
    record; with `idx = some i` overwrite entry `i` with `page_ids[-1]`
    (Python raises KeyError when `seqno` has no record, IndexError when
    `i` is out of range or `page_ids` is empty: `none`). -/
def allocate (b : BuddySystem) (page_ids : List Nat) (seqno : Int)
    (idx : Option Nat) : Option BuddySystem :=
  match idx with
  | none =>
    let d := dictSet b.allocated_pages seqno (page_ids.map Int.ofNat)
    some { b with allocated_pages := d }
  | some i =>
    match dictGet b.allocated_pages seqno with
    | none => none
    | some l =>
      if i < l.length then
        match page_ids.getLast? with
        | none => none
        | some p =>
          let d := dictSet b.allocated_pages seqno (l.set i (Int.ofNat p))
          some { b with allocated_pages := d }
      else none

/-- `access(seqno, num)`: positional lookup in the allocation record, -1 on
    any miss (unknown seqno, empty record, index out of range). -/
def access (b : BuddySystem) (seqno : Int) (num : Nat) : Int :=
  match dictGet b.allocated_pages seqno with
  | none => -1
  | some l => if h : num < l.length then l.get ⟨num, h⟩ else -1

/-- `deallocate(seqno, num)`: free the page found by `access` (marking the
    slot -1 and tombstoning the record entry), then always rebuild the free
    lists; returns the freed id, or -1 on miss (a no-op apart from the
    rebuild). -/
def deallocate (b : BuddySystem) (seqno : Int) (num : Nat) :
    Int × BuddySystem :=
  let page_id := b.access seqno num
  let b' :=
    if 0 ≤ page_id then
      let pg := b.pages.set page_id.toNat (-1)
      let d := dictSet b.allocated_pages seqno
        (((dictGet b.allocated_pages seqno).getD []).set num (-1))
      { b with pages := pg, allocated_pages := d }
    else b
  (page_id, update_buddy_lists b')

/-- `count_free_pages`: number of slots equal to -1. -/
def count_free_pages (b : BuddySystem) : Nat :=
  b.pages.countP (fun s => s == -1)

end BuddySystem

/-- An LRU node `(page_id, seqno, num)` as stored in the two lists. -/
abbrev Node := Int × Int × Nat

/-- Combined simulation state: the buddy system plus the two-list LRU
    reclaimer (`class LRU` holds a reference to the buddy system; here the
    two are one record). -/
structure Sim where
  bs : BuddySystem
  active_list : List Node
  inactive_list : List Node
  size_active : Nat
  size_inactive : Nat
deriving DecidableEq, Repr

namespace Sim

/-- One pass of Python's `for node in lst: if node[0] == page_id:
    lst.remove(node)` — iterating by a cursor `k` over a list that shrinks
    under it (`List.erase` = `list.remove`: drop the first equal element).
    `fuel` starts at the list length, an upper bound on the iterations. -/
def pyDeleteAux (pid : Int) : Nat → List Node → Nat → List Node
  | 0, l, _ => l
  | fuel + 1, l, k =>
    if h : k < l.length then
      let nd := l.get ⟨k, h⟩
      if nd.1 = pid then pyDeleteAux pid fuel (l.erase nd) (k + 1)
      else pyDeleteAux pid fuel l (k + 1)
    else l

def pyDelete (pid : Int) (l : List Node) : List Node :=
  pyDeleteAux pid l.length l 0

/-- `LRU.delete(page_id)`: remove matching nodes from both lists (with the
    Python iterate-while-removing semantics). -/
def delete (s : Sim) (page_id : Int) : Sim :=
  { s with inactive_list := pyDelete page_id s.inactive_list
           active_list := pyDelete page_id s.active_list }

/-- `LRU.reclaim(page_id, seqno, num)`: drop the node from the lists and
    deallocate the page in the buddy system. -/
def reclaim (s : Sim) (page_id seqno : Int) (num : Nat) : Sim :=
  let s' := s.delete page_id
  { s' with bs := (s'.bs.deallocate seqno num).2 }

/-- The eviction loop of `insert_inactive`: `count` times, pop the head of the
    inactive list (IndexError = `none` when it is empty) and reclaim it. -/
def evictLoop : Sim → Nat → Option Sim
  | s, 0 => some s
  | s, count + 1 =>
    match s.inactive_list with
    | [] => none
    | nd :: rest =>
      evictLoop (Sim.reclaim { s with inactive_list := rest } nd.1 nd.2.1 nd.2.2)
        count

/-- `LRU.insert_inactive(page_id, seqno, num)`: append at the tail; if the
    list now exceeds `size_inactive`, evict `len - size_inactive` heads. -/
def insert_inactive (s : Sim) (page_id seqno : Int) (num : Nat) : Option Sim :=
  let s₁ := { s with inactive_list := s.inactive_list ++ [(page_id, seqno, num)] }
  if s₁.inactive_list.length > s₁.size_inactive then
    evictLoop s₁ (s₁.inactive_list.length - s₁.size_inactive)
  else some s₁

/-- `LRU.find_index(page_id)`: `(0, i)` if in the inactive list, `(1, i)` if
    in the active list, `(-1, -1)` otherwise; the inactive list is searched
    first. -/
def find_index (s : Sim) (page_id : Int) : Int × Int :=
  match s.inactive_list.findIdx? (fun nd => nd.1 == page_id) with
  | some i => (0, Int.ofNat i)
  | none =>
    match s.active_list.findIdx? (fun nd => nd.1 == page_id) with
    | some i => (1, Int.ofNat i)
    | none => (-1, -1)

/-- The demotion loop of `promote`: `count` times, pop the head of the active
    list (IndexError = `none` when empty) and re-insert it into the inactive
    list. -/
def demoteLoop : Sim → Nat → Option Sim
  | s, 0 => some s
  | s, count + 1 =>
    match s.active_list with
    | [] => none
    | nd :: rest =>
      match Sim.insert_inactive { s with active_list := rest } nd.1 nd.2.1 nd.2.2 with
      | none => none
      | some s' => demoteLoop s' count

/-- `LRU.promote(page_id)`: only when the node is in the inactive list, move
    it to the tail of the active list and demote overflowing active heads. -/
def promote (s : Sim) (page_id : Int) : Option Sim :=
  let li := s.find_index page_id
  if li.1 = 0 then
    let i := li.2.toNat
    let node := s.inactive_list.getD i ((-1 : Int), (-1 : Int), (0 : Nat))
    let s₁ := { s with inactive_list := s.inactive_list.eraseIdx i
                       active_list := s.active_list ++ [node] }
    if s₁.active_list.length > s₁.size_active then
      demoteLoop s₁ (s₁.active_list.length - s₁.size_active)
    else some s₁
  else some s

/-- `LRU.reclaim_n_pages(n)`: the loop body prefers the inactive head, then
    the active head; when both lists are empty it re-uses the loop variables
    of the previous iteration (`last`) — on the first iteration they are
    unbound and Python raises NameError (`none`). -/
def reclaimN : Sim → Nat → Option Node → Option Sim
  | s, 0, _ => some s
  | s, count + 1, last =>
    match s.inactive_list with
    | nd :: rest =>
      reclaimN (Sim.reclaim { s with inactive_list := rest } nd.1 nd.2.1 nd.2.2)
        count (some nd)
    | [] =>
      match s.active_list with
      | nd :: rest =>
        reclaimN (Sim.reclaim { s with active_list := rest } nd.1 nd.2.1 nd.2.2)
          count (some nd)
      | [] =>
        match last with
        | none => none
        | some nd => reclaimN (s.reclaim nd.1 nd.2.1 nd.2.2) count (some nd)

def reclaim_n_pages (s : Sim) (n : Nat) : Option Sim :=
  reclaimN s n none

end Sim

/-- A trace record `(action, seqno, num)` with `action ∈ {A, X, F}`. -/
inductive Event where
  | A (seqno : Int) (num : Nat)
  | X (seqno : Int) (num : Nat)
  | F (seqno : Int) (num : Nat)
deriving DecidableEq, Repr

def Event.seqno : Event → Int
  | .A s _ => s
  | .X s _ => s
  | .F s _ => s

/-- The per-id insertion loop of the Allocate branch:
    `for idx, p_id in enumerate(page_ids): insert_inactive(p_id, seqno, idx)`. -/
def insertAll : Sim → Int → List Nat → Nat → Option Sim
  | s, _, [], _ => some s
  | s, sq, p :: ps, idx =>
    match s.insert_inactive (Int.ofNat p) sq idx with
    | none => none
    | some s' => insertAll s' sq ps (idx + 1)

/-- The Allocate branch of the event loop. -/
def stepA (s : Sim) (seqno : Int) (num : Nat) : Option Sim :=
  let n_pages : Int := (num : Int) - (s.bs.count_free_pages : Int)
  match (if n_pages ≤ 0 then some s else s.reclaim_n_pages n_pages.toNat) with
  | none => none
  | some s₁ =>
    match s₁.bs.request_pages seqno num with
    | none => none
    | some (page_ids, bs₁) =>
      match BuddySystem.allocate bs₁ page_ids seqno none with
      | none => none
      | some bs₂ => insertAll { s₁ with bs := bs₂ } seqno page_ids 0

/-- The page-fault path of the Access branch (taken when `access` returned a
    negative id). -/
def xFault (s : Sim) (seqno : Int) (num : Nat) : Option Sim :=
  let n_pages : Int := 1 - (s.bs.count_free_pages : Int)
  match (if n_pages ≤ 0 then some s else s.reclaim_n_pages n_pages.toNat) with
  | none => none
  | some s₁ =>
    match s₁.bs.request_pages seqno 1 with
    | none => none
    | some (page_ids, bs₁) =>
      match BuddySystem.allocate bs₁ page_ids seqno (some num) with
      | none => none
      | some bs₂ =>
        match page_ids.getLast? with
        | none => none
        | some p =>
          Sim.insert_inactive { s₁ with bs := bs₂ } (Int.ofNat p) seqno num

/-- The Access branch of the event loop. -/
def stepX (s : Sim) (seqno : Int) (num : Nat) : Option Sim :=
  let page_id := s.bs.access seqno num
  if 0 ≤ page_id then s.promote page_id
  else xFault s seqno num

/-- The Free branch of the event loop. -/
def stepF (s : Sim) (seqno : Int) (num : Nat) : Option Sim :=
  let r := s.bs.deallocate seqno num
  some (Sim.delete { s with bs := r.2 } r.1)

/-- One iteration of the main event loop. -/
def step (s : Sim) : Event → Option Sim
  | .A sq n => stepA s sq n
  | .X sq n => stepX s sq n
  | .F sq n => stepF s sq n

/-- Run a trace from a state; `none` as soon as an event raises. -/
def run (s : Sim) : List Event → Option Sim
  | [] => some s
  | e :: es =>
    match step s e with
    | none => none
    | some s' => run s' es

/-- The simulator as materialized in `__main__`: a fresh buddy system over
    `MAX_PAGENO` pages and an LRU with the two capacities. -/
def Sim.init (MAX_PAGENO size_active size_inactive : Nat) : Sim :=
  { bs := BuddySystem.init MAX_PAGENO
    active_list := []
    inactive_list := []
    size_active := size_active
    size_inactive := size_inactive }

/- ----------------------------------------------------------------------- -/
/- Concrete runs used by several claims.                                    -/
/- ----------------------------------------------------------------------- -/

/-- Final state of the residency-invariant failing trace
    `A 1 1; A 1 1; A 2 1; A 3 1` (MAX_PAGENO = 8, both list capacities 2). -/
def c2state : Sim :=
  (run (Sim.init 8 2 2)
    [Event.A 1 1, Event.A 1 1, Event.A 2 1, Event.A 3 1]).getD (Sim.init 8 2 2)

/-- C2: after `A 1 1; A 1 1; A 2 1; A 3 1` the allocation record of seqno 3
    is `[1]` — page id 1 is a non-sentinel entry — yet no node of either LRU
    list carries page id 1 (the eviction of the stale node `(1, 1, 0)` during
    the last insertion deleted the freshly inserted node `(1, 3, 0)` as well),
    so the residency/LRU invariant claimed by C2 is violated by the code. -/
theorem C2_residency_violation :
    run (Sim.init 8 2 2)
      [Event.A 1 1, Event.A 1 1, Event.A 2 1, Event.A 3 1] = some c2state ∧
    dictGet c2state.bs.allocated_pages 3 = some [1] ∧
    (c2state.inactive_list ++ c2state.active_list).countP
      (fun nd => nd.1 == 1) = 0 ∧
    c2state.bs.pages.get? 1 = some 3 :=
  ⟨rfl, rfl, rfl, rfl⟩

/-- State after the first two events of the C3 scenario. -/
def c3state2 : Sim :=
  (run (Sim.init 8 2 2) [Event.A 1 4, Event.A 2 4]).getD (Sim.init 8 2 2)

/-- Final state of the C3 scenario trace. -/
def c3state3 : Sim :=
  (run (Sim.init 8 2 2)
    [Event.A 1 4, Event.A 2 4, Event.A 3 1]).getD (Sim.init 8 2 2)

/-- C3 (counterexample): in the claimed scenario (MAX_PAGENO = 8, both
    capacities 2, trace `A 1 4; A 2 4; A 3 1`) the first two allocations do
    NOT leave all 8 pages occupied: six pages are free, because each
    allocation's inserts overflow the capacity-2 inactive list and evict the
    owner's older pages immediately. -/
theorem C3_scenario_counterexample :
    run (Sim.init 8 2 2) [Event.A 1 4, Event.A 2 4] = some c3state2 ∧
    c3state2.bs.count_free_pages = 6 ∧ c3state2.bs.count_free_pages ≠ 0 :=
  ⟨rfl, rfl, by decide⟩

/-- C3 (actual behaviour): after `A 1 4; A 2 4` only pages 6 and 7 remain
    occupied (by seqno 2) and the inactive list holds `(6,2,2), (7,2,3)`;
    the third event `A 3 1` needs no reclaim (6 pages are free), allocates
    page 0, and its insertion evicts exactly one page — the inactive head
    `(6,2,2)`, seqno 2's page of index 2 — after which `access(1,0) = -1`
    and `count_free_pages() = 6`. -/
theorem C3_scenario_actual :
    run (Sim.init 8 2 2)
      [Event.A 1 4, Event.A 2 4, Event.A 3 1] = some c3state3 ∧
    c3state2.bs.pages = [-1, -1, -1, -1, -1, -1, 2, 2] ∧
    c3state2.inactive_list = [(6, 2, 2), (7, 2, 3)] ∧
    c3state2.active_list = [] ∧
    c3state3.bs.pages = [3, -1, -1, -1, -1, -1, -1, 2] ∧
    c3state3.inactive_list = [(7, 2, 3), (0, 3, 0)] ∧
    c3state3.active_list = [] ∧
    c3state3.bs.access 1 0 = -1 ∧
    c3state3.bs.count_free_pages = 6 :=
  ⟨rfl, rfl, rfl, rfl, rfl, rfl, rfl, rfl, rfl⟩

/-- C5: an Access event whose seqno was never allocated raises KeyError in
    `allocate` (subscripting a missing dict key), and an Access event whose
    positional index lies beyond the length of the seqno's allocation record
    raises IndexError — in both cases the event does NOT complete. -/
theorem C5_access_fault_error :
    run (Sim.init 8 2 2) [Event.X 5 0] = none ∧
    run (Sim.init 8 2 2) [Event.A 1 1, Event.X 1 5] = none :=
  ⟨rfl, rfl⟩

/-- C9: an Allocate event with `num = 0` raises ValueError in
    `math.ceil(math.log2(0))` inside `request_pages`, so the event does not
    complete (let alone leave the state unchanged). -/
theorem C9_zero_alloc_error :
    run (Sim.init 8 2 2) [Event.A 1 0] = none :=
  rfl

/-- State exhibiting the C8 counterexample: `size_active = 0`,
    `size_inactive = 1`, trace `A 1 1; X 1 0`. -/
def c8state : Sim :=
  (run (Sim.init 8 0 1) [Event.A 1 1, Event.X 1 0]).getD (Sim.init 8 0 1)

/-- C8 (counterexample): with `size_active = 0` an access to the resident
    page 0 completes, but the page ends in the *inactive* list (the promoted
    node is demoted straight back), so the second of two consecutive accesses
    does not find the page in the active list as the claim states. -/
theorem C8_reaccess_counterexample :
    run (Sim.init 8 0 1) [Event.A 1 1, Event.X 1 0] = some c8state ∧
    0 ≤ c8state.bs.access 1 0 ∧
    c8state.active_list = [] ∧
    c8state.inactive_list = [(0, 1, 0)] :=
  ⟨rfl, by decide, rfl, rfl⟩

/- ----------------------------------------------------------------------- -/
/- Small lemmas about the LRU primitives.                                   -/
/- ----------------------------------------------------------------------- -/

theorem pyDeleteAux_no_match (pid : Int) :
    ∀ (fuel : Nat) (l : List Node) (k : Nat),
      (∀ nd ∈ l, nd.1 ≠ pid) → Sim.pyDeleteAux pid fuel l k = l := by
  intro fuel
  induction fuel with
  | zero => intro l k _; rfl
  | succ f ih =>
    intro l k h
    unfold Sim.pyDeleteAux
    split
    · next hk =>
      have hm := h (l.get ⟨k, hk⟩) (l.get_mem k hk)
      simp only [hm, if_false]
      exact ih l (k + 1) h
    · rfl

theorem pyDelete_no_match (pid : Int) (l : List Node)
    (h : ∀ nd ∈ l, nd.1 ≠ pid) : Sim.pyDelete pid l = l :=
  pyDeleteAux_no_match pid l.length l 0 h

/-- C10: `promote(page_id)` is the total no-op `some s` whenever no node of
    either LRU list (searched via `find_index`) carries `page_id`; in
    particular `promote(-1)` never changes anything. -/
theorem C10_promote_absent_noop (s : Sim) (pid : Int)
    (h₁ : ∀ nd ∈ s.inactive_list, nd.1 ≠ pid)
    (h₂ : ∀ nd ∈ s.active_list, nd.1 ≠ pid) :
    s.promote pid = some s := by
  have e₁ : s.inactive_list.findIdx? (fun nd => nd.1 == pid) = none := by
    rw [List.findIdx?_eq_none_iff]
    intro nd hnd
    simpa using h₁ nd hnd
  have e₂ : s.active_list.findIdx? (fun nd => nd.1 == pid) = none := by
    rw [List.findIdx?_eq_none_iff]
    intro nd hnd
    simpa using h₂ nd hnd
  simp [Sim.promote, Sim.find_index, e₁, e₂]

theorem C10_promote_absent_noop_witness :
    ((∀ nd ∈ (Sim.init 8 2 2).inactive_list, nd.1 ≠ (-1 : Int)) ∧
      (∀ nd ∈ (Sim.init 8 2 2).active_list, nd.1 ≠ (-1 : Int))) ∧
    (Sim.init 8 2 2).promote (-1) = some (Sim.init 8 2 2) :=
  ⟨⟨by simp [Sim.init], by simp [Sim.init]⟩,
    C10_promote_absent_noop (Sim.init 8 2 2) (-1)
      (by simp [Sim.init]) (by simp [Sim.init])⟩

/-- C7: in a state whose buddy lists agree with a rebuild from the page array
    (as they do after every event) and whose LRU nodes never carry id -1, a
    Free event on a `(seqno, num)` with `access = -1` (already freed or
    absent) returns -1 from `deallocate`, changes nothing at all, and a
    subsequent Access on the same `(seqno, num)` takes the page-fault branch
    `xFault` rather than the promote branch. -/
theorem C7_free_noop (s : Sim) (seqno : Int) (num : Nat)
    (hbl : s.bs.buddy_lists = BuddySystem.rebuildLists s.bs.buddy_count s.bs.pages)
    (hacc : s.bs.access seqno num = -1)
    (h₁ : ∀ nd ∈ s.inactive_list, nd.1 ≠ -1)
    (h₂ : ∀ nd ∈ s.active_list, nd.1 ≠ -1) :
    (s.bs.deallocate seqno num).1 = -1 ∧
    step s (.F seqno num) = some s ∧
    step s (.X seqno num) = xFault s seqno num := by
  have hub : s.bs.update_buddy_lists = s.bs := by
    unfold BuddySystem.update_buddy_lists
    rw [← hbl]
  have hd : s.bs.deallocate seqno num = (-1, s.bs) := by
    unfold BuddySystem.deallocate
    rw [hacc]
    norm_num [hub]
  refine ⟨by rw [hd], ?_, ?_⟩
  · show stepF s seqno num = some s
    unfold stepF
    rw [hd]
    simp only []
    show some (Sim.delete { s with bs := s.bs } (-1)) = some s
    unfold Sim.delete
    rw [pyDelete_no_match _ _ h₁, pyDelete_no_match _ _ h₂]
  · show stepX s seqno num = xFault s seqno num
    unfold stepX
    rw [hacc]
    norm_num

theorem C7_free_noop_witness :
    ((Sim.init 8 2 2).bs.buddy_lists =
        BuddySystem.rebuildLists (Sim.init 8 2 2).bs.buddy_count
          (Sim.init 8 2 2).bs.pages ∧
      (Sim.init 8 2 2).bs.access 5 0 = -1) ∧
    ((Sim.init 8 2 2).bs.deallocate 5 0).1 = -1 ∧
    step (Sim.init 8 2 2) (.F 5 0) = some (Sim.init 8 2 2) ∧
    step (Sim.init 8 2 2) (.X 5 0) = xFault (Sim.init 8 2 2) 5 0 :=
  ⟨⟨rfl, rfl⟩,
    C7_free_noop (Sim.init 8 2 2) 5 0 rfl rfl
      (by simp [Sim.init]) (by simp [Sim.init])⟩

theorem findIdx_decomp {pb : Node → Bool} :
    ∀ (l : List Node) (j : Nat), l.findIdx? pb = some j →
      ∃ l₁ nd l₂, l = l₁ ++ nd :: l₂ ∧ l₁.length = j ∧ pb nd = true ∧
        ∀ x ∈ l₁, pb x = false := by
  intro l
  induction l with
  | nil => intro j h; simp at h
  | cons x xs ih =>
    intro j h
    rw [List.findIdx?_cons] at h
    by_cases hx : pb x = true
    · rw [if_pos hx] at h
      refine ⟨[], x, xs, by simp, ?_, hx, by simp⟩
      simpa using h
    · rw [if_neg hx] at h
      rw [List.findIdx?_succ] at h
      obtain ⟨a, ha, rfl⟩ := Option.map_eq_some'.mp h
      obtain ⟨l₁, nd, l₂, hl, hlen, hnd, hall⟩ := ih a ha
      refine ⟨x :: l₁, nd, l₂, by rw [hl]; rfl, by simp [hlen], hnd, ?_⟩
      intro y hy
      rcases List.mem_cons.mp hy with rfl | hy
      · exact Bool.not_eq_true _ ▸ (by revert hx; cases pb y <;> simp)
      · exact hall y hy

theorem getD_append_length {α : Type} (l₁ : List α) (nd : α) (l₂ : List α)
    (d : α) : (l₁ ++ nd :: l₂).getD l₁.length d = nd := by
  induction l₁ with
  | nil => rfl
  | cons x xs ih => simpa using ih

theorem eraseIdx_append_length {α : Type} (l₁ : List α) (nd : α)
    (l₂ : List α) : (l₁ ++ nd :: l₂).eraseIdx l₁.length = l₁ ++ l₂ := by
  induction l₁ with
  | nil => rfl
  | cons x xs ih => simpa using ih

theorem ofNat_toNat_eq (n : Nat) : (Int.ofNat n).toNat = n := rfl

theorem promote_found (s : Sim) (p : Int) (l₁ l₂ : List Node) (nd : Node)
    (hl : s.inactive_list = l₁ ++ nd :: l₂)
    (hin : s.inactive_list.findIdx? (fun x => x.1 == p) = some l₁.length) :
    s.promote p =
      (if s.active_list.length + 1 > s.size_active then
        Sim.demoteLoop
          { s with inactive_list := l₁ ++ l₂
                   active_list := s.active_list ++ [nd] }
          (s.active_list.length + 1 - s.size_active)
      else
        some { s with inactive_list := l₁ ++ l₂
                      active_list := s.active_list ++ [nd] }) := by
  show Sim.promote s p = _
  unfold Sim.promote Sim.find_index
  rw [hin]
  simp only [if_true, ofNat_toNat_eq]
  rw [hl, getD_append_length, eraseIdx_append_length]
  simp [List.length_append]

theorem promote_not_inactive (s : Sim) (p : Int)
    (hin : s.inactive_list.findIdx? (fun x => x.1 == p) = none) :
    s.promote p = some s := by
  show Sim.promote s p = _
  unfold Sim.promote Sim.find_index
  rw [hin]
  cases hact : s.active_list.findIdx? (fun x => x.1 == p) <;> simp

theorem insert_inactive_no_evict (s : Sim) (pid sq : Int) (n : Nat)
    (h : s.inactive_list.length + 1 ≤ s.size_inactive) :
    s.insert_inactive pid sq n =
      some { s with inactive_list := s.inactive_list ++ [(pid, sq, n)] } := by
  show Sim.insert_inactive s pid sq n = _
  unfold Sim.insert_inactive
  rw [if_neg]
  simp only [List.length_append, List.length_cons, List.length_nil]
  omega

/-- C8 (amended): an Access to a (seqno, num) whose page is resident (its id
    is carried by exactly one LRU node, and the lists are within their
    capacities) leaves the entire PageArena state — page-slot array, buddy
    free lists, allocation record — exactly unchanged; with `size_active ≥ 1`
    the page then sits in the active list and a second, consecutive Access on
    the same (seqno, num) changes nothing at all. -/
theorem C8_reaccess_frame (s : Sim) (seqno : Int) (num : Nat) (p : Int)
    (hacc : s.bs.access seqno num = p) (hp : 0 ≤ p)
    (hcnt : ((s.inactive_list ++ s.active_list).filter
        (fun nd => nd.1 == p)).length = 1)
    (hI : s.inactive_list.length ≤ s.size_inactive)
    (hA : s.active_list.length ≤ s.size_active)
    (hsa : 1 ≤ s.size_active) :
    ∃ s₁, step s (.X seqno num) = some s₁ ∧ s₁.bs = s.bs ∧
      s₁.size_active = s.size_active ∧ s₁.size_inactive = s.size_inactive ∧
      (∃ nd ∈ s₁.active_list, nd.1 = p) ∧
      step s₁ (.X seqno num) = some s₁ := by
  have hstep : ∀ t : Sim, t.bs = s.bs → step t (.X seqno num) = t.promote p := by
    intro t ht
    show stepX t seqno num = t.promote p
    unfold stepX
    rw [ht, hacc, if_pos hp]
  cases hin : s.inactive_list.findIdx? (fun x => x.1 == p) with
  | none =>
    have hnotin : ∀ x ∈ s.inactive_list, ((fun x : Node => x.1 == p) x) = false :=
      List.findIdx?_eq_none_iff.mp hin
    have hfil : (s.active_list.filter (fun nd => nd.1 == p)).length = 1 := by
      have hnil : s.inactive_list.filter (fun nd => nd.1 == p) = [] :=
        List.filter_eq_nil_iff.mpr
          (by intro a ha; simp [hnotin a ha])
      rw [List.filter_append, hnil] at hcnt
      simpa using hcnt
    have hex : ∃ nd ∈ s.active_list, nd.1 = p := by
      rcases hfl : s.active_list.filter (fun nd => nd.1 == p) with _ | ⟨a, t⟩
      · rw [hfl] at hfil; simp at hfil
      · have ham : a ∈ s.active_list.filter (fun nd => nd.1 == p) := by
          rw [hfl]; exact List.mem_cons_self a t
        exact ⟨a, (List.mem_filter.mp ham).1,
          by simpa using (List.mem_filter.mp ham).2⟩
    have hpr : s.promote p = some s := promote_not_inactive s p hin
    exact ⟨s, by rw [hstep s rfl, hpr], rfl, rfl, rfl, hex,
      by rw [hstep s rfl, hpr]⟩
  | some i =>
    obtain ⟨l₁, nd, l₂, hl, hlen, hnd, hall⟩ := findIdx_decomp _ _ hin
    have hndb : (nd.1 == p) = true := by simpa using hnd
    have hndp : nd.1 = p := by simpa using hnd
    rw [← hlen] at hin
    simp only [hl, List.filter_append, List.filter_cons, hndb, if_true,
      List.length_append, List.length_cons] at hcnt
    have hz₁ : (l₁.filter (fun x => x.1 == p)).length = 0 := by omega
    have hz₂ : (l₂.filter (fun x => x.1 == p)).length = 0 := by omega
    have hza : (s.active_list.filter (fun x => x.1 == p)).length = 0 := by
      omega
    have hl₂ : ∀ x ∈ l₂, (x.1 == p) = false := by
      intro x hx
      have := List.filter_eq_nil_iff.mp (List.length_eq_zero.mp hz₂) x hx
      revert this; cases (x.1 == p) <;> simp
    have hl₁ : ∀ x ∈ l₁, (x.1 == p) = false := by
      intro x hx
      have := hall x hx
      simpa using this
    have hact : ∀ x ∈ s.active_list, (x.1 == p) = false := by
      intro x hx
      have := List.filter_eq_nil_iff.mp (List.length_eq_zero.mp hza) x hx
      revert this; cases (x.1 == p) <;> simp
    have hlen2 : s.inactive_list.length = l₁.length + (l₂.length + 1) := by
      rw [hl]; simp
    have hprom := promote_found s p l₁ l₂ nd hl hin
    by_cases hov : s.active_list.length + 1 > s.size_active
    · have hAeq : s.active_list.length = s.size_active := by omega
      obtain ⟨a, t, hat⟩ : ∃ a t, s.active_list = a :: t := by
        cases hc : s.active_list with
        | nil => rw [hc] at hAeq; simp at hAeq; omega
        | cons a t => exact ⟨a, t, rfl⟩
      have hamem : a ∈ s.active_list := by rw [hat]; exact List.mem_cons_self a t
      refine ⟨{ s with inactive_list := (l₁ ++ l₂) ++ [a]
                       active_list := t ++ [nd] }, ?_, rfl, rfl, rfl,
        ⟨nd, by simp, hndp⟩, ?_⟩
      · rw [hstep s rfl, hprom, if_pos hov]
        have hc1 : s.active_list.length + 1 - s.size_active = 1 := by omega
        rw [hc1, hat, List.cons_append]
        show (match Sim.insert_inactive
            { s with inactive_list := l₁ ++ l₂, active_list := t ++ [nd] }
            a.1 a.2.1 a.2.2 with
          | none => none
          | some s' => Sim.demoteLoop s' 0) = _
        rw [insert_inactive_no_evict _ _ _ _ (by simp; omega)]
        rfl
      · refine (hstep { s with inactive_list := (l₁ ++ l₂) ++ [a]
                               active_list := t ++ [nd] } rfl).trans
          (promote_not_inactive _ p ?_)
        rw [List.findIdx?_eq_none_iff]
        intro x hx
        simp only [List.mem_append, List.mem_singleton] at hx
        rcases hx with (hx | hx) | rfl
        · exact hl₁ x hx
        · exact hl₂ x hx
        · exact hact _ hamem
    · refine ⟨{ s with inactive_list := l₁ ++ l₂
                       active_list := s.active_list ++ [nd] }, ?_, rfl, rfl,
        rfl, ⟨nd, by simp, hndp⟩, ?_⟩
      · rw [hstep s rfl, hprom, if_neg hov]
      · refine (hstep { s with inactive_list := l₁ ++ l₂
                               active_list := s.active_list ++ [nd] } rfl).trans
          (promote_not_inactive _ p ?_)
        rw [List.findIdx?_eq_none_iff]
        intro x hx
        simp only [List.mem_append] at hx
        rcases hx with hx | hx
        · exact hl₁ x hx
        · exact hl₂ x hx

/-- Witness state for C8: after `A 1 1` page 0 is resident in the inactive
    list, ready to be accessed twice. -/
def c8wit : Sim :=
  (run (Sim.init 8 2 2) [Event.A 1 1]).getD (Sim.init 8 2 2)

theorem C8_reaccess_frame_witness :
    (c8wit.bs.access 1 0 = 0 ∧ (0 : Int) ≤ 0 ∧
      ((c8wit.inactive_list ++ c8wit.active_list).filter
        (fun nd => nd.1 == (0 : Int))).length = 1 ∧
      c8wit.inactive_list.length ≤ c8wit.size_inactive ∧
      c8wit.active_list.length ≤ c8wit.size_active ∧
      1 ≤ c8wit.size_active) ∧
    (∃ s₁, step c8wit (.X 1 0) = some s₁ ∧ s₁.bs = c8wit.bs ∧
      s₁.size_active = c8wit.size_active ∧
      s₁.size_inactive = c8wit.size_inactive ∧
      (∃ nd ∈ s₁.active_list, nd.1 = (0 : Int)) ∧
      step s₁ (.X 1 0) = some s₁) :=
  ⟨⟨rfl, by decide, rfl, by decide, by decide, by decide⟩,
    C8_reaccess_frame c8wit 1 0 0 rfl (by decide) rfl (by decide) (by decide)
      (by decide)⟩

/- ----------------------------------------------------------------------- -/
/- C6: the list-capacity invariant.                                         -/
/- ----------------------------------------------------------------------- -/

theorem pyDeleteAux_length_le (pid : Int) :
    ∀ (fuel : Nat) (l : List Node) (k : Nat),
      (Sim.pyDeleteAux pid fuel l k).length ≤ l.length := by
  intro fuel
  induction fuel with
  | zero => intro l k; exact Nat.le_refl _
  | succ f ih =>
    intro l k
    unfold Sim.pyDeleteAux
    split
    · next hk =>
      show (if (l.get ⟨k, hk⟩).1 = pid then
          Sim.pyDeleteAux pid f (l.erase (l.get ⟨k, hk⟩)) (k + 1)
        else Sim.pyDeleteAux pid f l (k + 1)).length ≤ l.length
      split
      · exact Nat.le_trans (ih _ _) (List.length_erase_le _ _)
      · exact ih _ _
    · exact Nat.le_refl _

theorem pyDelete_length_le (pid : Int) (l : List Node) :
    (Sim.pyDelete pid l).length ≤ l.length :=
  pyDeleteAux_length_le pid l.length l 0

/-- `reclaim` only shrinks the two lists and never touches the capacities. -/
theorem reclaim_shape (s : Sim) (p sq : Int) (n : Nat) :
    (s.reclaim p sq n).inactive_list.length ≤ s.inactive_list.length ∧
    (s.reclaim p sq n).active_list.length ≤ s.active_list.length ∧
    (s.reclaim p sq n).size_active = s.size_active ∧
    (s.reclaim p sq n).size_inactive = s.size_inactive :=
  ⟨pyDelete_length_le p s.inactive_list, pyDelete_length_le p s.active_list,
    rfl, rfl⟩

theorem evictLoop_shape :
    ∀ (k : Nat) (s s' : Sim), Sim.evictLoop s k = some s' →
      s'.inactive_list.length + k ≤ s.inactive_list.length ∧
      s'.active_list.length ≤ s.active_list.length ∧
      s'.size_active = s.size_active ∧ s'.size_inactive = s.size_inactive := by
  intro k
  induction k with
  | zero =>
    intro s s' h
    unfold Sim.evictLoop at h
    injection h with h
    subst h
    exact ⟨Nat.le_refl _, Nat.le_refl _, rfl, rfl⟩
  | succ kk ih =>
    intro s s' h
    unfold Sim.evictLoop at h
    cases hil : s.inactive_list with
    | nil => rw [hil] at h; cases h
    | cons nd rest =>
      rw [hil] at h
      obtain ⟨r1, r2, r3, r4⟩ :=
        reclaim_shape { s with inactive_list := rest } nd.1 nd.2.1 nd.2.2
      dsimp only at r1 r2 r3 r4
      obtain ⟨h1, h2, h3, h4⟩ := ih _ _ h
      refine ⟨?_, Nat.le_trans h2 r2, h3.trans r3, h4.trans r4⟩
      simp only [List.length_cons]
      omega

theorem insert_inactive_shape (s : Sim) (pid sq : Int) (n : Nat) (s' : Sim)
    (h : s.insert_inactive pid sq n = some s') :
    s'.inactive_list.length ≤ s.size_inactive ∧
    s'.active_list.length ≤ s.active_list.length ∧
    s'.size_active = s.size_active ∧ s'.size_inactive = s.size_inactive := by
  unfold Sim.insert_inactive at h
  simp only [List.length_append, List.length_cons, List.length_nil] at h
  split at h
  · next hc =>
    obtain ⟨h1, h2, h3, h4⟩ := evictLoop_shape _ _ _ h
    simp only [List.length_append, List.length_cons, List.length_nil] at h1
    exact ⟨by omega, h2, h3, h4⟩
  · next hc =>
    injection h with h
    subst h
    refine ⟨?_, Nat.le_refl _, rfl, rfl⟩
    simp only [List.length_append, List.length_cons, List.length_nil]
    omega

theorem demoteLoop_shape :
    ∀ (k : Nat) (s s' : Sim), Sim.demoteLoop s k = some s' →
      s'.active_list.length + k ≤ s.active_list.length ∧
      (s'.inactive_list.length ≤ s.inactive_list.length ∨
        s'.inactive_list.length ≤ s.size_inactive) ∧
      s'.size_active = s.size_active ∧ s'.size_inactive = s.size_inactive := by
  intro k
  induction k with
  | zero =>
    intro s s' h
    unfold Sim.demoteLoop at h
    injection h with h
    subst h
    exact ⟨Nat.le_refl _, Or.inl (Nat.le_refl _), rfl, rfl⟩
  | succ kk ih =>
    intro s s' h
    unfold Sim.demoteLoop at h
    cases hal : s.active_list with
    | nil => rw [hal] at h; cases h
    | cons nd rest =>
      rw [hal] at h
      replace h : (match Sim.insert_inactive { s with active_list := rest }
          nd.1 nd.2.1 nd.2.2 with
        | none => none
        | some s₂ => Sim.demoteLoop s₂ kk) = some s' := h
      cases hi : Sim.insert_inactive { s with active_list := rest }
          nd.1 nd.2.1 nd.2.2 with
      | none => rw [hi] at h; cases h
      | some s₂ =>
        rw [hi] at h
        replace h : Sim.demoteLoop s₂ kk = some s' := h
        obtain ⟨i1, i2, i3, i4⟩ := insert_inactive_shape _ _ _ _ _ hi
        dsimp only at i1 i2 i3 i4
        obtain ⟨h1, h2, h3, h4⟩ := ih _ _ h
        refine ⟨?_, ?_, h3.trans i3, h4.trans i4⟩
        · simp only [List.length_cons]
          omega
        · rcases h2 with h2 | h2
          · exact Or.inr (by omega)
          · exact Or.inr (by omega)

theorem promote_shape (s : Sim) (p : Int) (s' : Sim)
    (hI : s.inactive_list.length ≤ s.size_inactive)
    (hA : s.active_list.length ≤ s.size_active)
    (h : s.promote p = some s') :
    s'.inactive_list.length ≤ s.size_inactive ∧
    s'.active_list.length ≤ s.size_active ∧
    s'.size_active = s.size_active ∧ s'.size_inactive = s.size_inactive := by
  simp only [Sim.promote] at h
  split at h
  · split at h
    · next hc =>
      obtain ⟨h1, h2, h3, h4⟩ := demoteLoop_shape _ _ _ h
      simp only [List.length_append, List.length_cons, List.length_nil] at h1 hc
      refine ⟨?_, by omega, h3, h4⟩
      rcases h2 with h2 | h2
      · exact Nat.le_trans h2 (Nat.le_trans (List.length_eraseIdx_le _ _) hI)
      · exact h2
    · next hc =>
      injection h with h
      subst h
      refine ⟨Nat.le_trans (List.length_eraseIdx_le _ _) hI, ?_, rfl, rfl⟩
      simp only [List.length_append, List.length_cons, List.length_nil] at hc ⊢
      omega
  · injection h with h
    subst h
    exact ⟨hI, hA, rfl, rfl⟩

theorem reclaimN_shape :
    ∀ (k : Nat) (last : Option Node) (s s' : Sim),
      Sim.reclaimN s k last = some s' →
      s'.inactive_list.length ≤ s.inactive_list.length ∧
      s'.active_list.length ≤ s.active_list.length ∧
      s'.size_active = s.size_active ∧ s'.size_inactive = s.size_inactive := by
  intro k
  induction k with
  | zero =>
    intro last s s' h
    replace h : some s = some s' := h
    injection h with h
    subst h
    exact ⟨Nat.le_refl _, Nat.le_refl _, rfl, rfl⟩
  | succ kk ih =>
    intro last s s' h
    obtain ⟨bs, act, inact, sa, si⟩ := s
    cases inact with
    | cons nd rest =>
      replace h : Sim.reclaimN
          (Sim.reclaim (⟨bs, act, rest, sa, si⟩ : Sim) nd.1 nd.2.1 nd.2.2)
          kk (some nd) = some s' := h
      obtain ⟨r1, r2, r3, r4⟩ :=
        reclaim_shape (⟨bs, act, rest, sa, si⟩ : Sim) nd.1 nd.2.1 nd.2.2
      dsimp only at r1 r2 r3 r4
      obtain ⟨h1, h2, h3, h4⟩ := ih _ _ _ h
      refine ⟨?_, Nat.le_trans h2 r2, h3.trans r3, h4.trans r4⟩
      simp only [List.length_cons]
      omega
    | nil =>
      cases act with
      | cons nd rest =>
        replace h : Sim.reclaimN
            (Sim.reclaim (⟨bs, rest, [], sa, si⟩ : Sim) nd.1 nd.2.1 nd.2.2)
            kk (some nd) = some s' := h
        obtain ⟨r1, r2, r3, r4⟩ :=
          reclaim_shape (⟨bs, rest, [], sa, si⟩ : Sim) nd.1 nd.2.1 nd.2.2
        dsimp only at r1 r2 r3 r4
        obtain ⟨h1, h2, h3, h4⟩ := ih _ _ _ h
        refine ⟨Nat.le_trans h1 r1, ?_, h3.trans r3, h4.trans r4⟩
        simp only [List.length_cons]
        omega
      | nil =>
        cases last with
        | none =>
          replace h : (none : Option Sim) = some s' := h
          cases h
        | some nd =>
          replace h : Sim.reclaimN
              (Sim.reclaim (⟨bs, [], [], sa, si⟩ : Sim) nd.1 nd.2.1 nd.2.2)
              kk (some nd) = some s' := h
          obtain ⟨r1, r2, r3, r4⟩ :=
            reclaim_shape (⟨bs, [], [], sa, si⟩ : Sim) nd.1 nd.2.1 nd.2.2
          dsimp only at r1 r2 r3 r4
          obtain ⟨h1, h2, h3, h4⟩ := ih _ _ _ h
          exact ⟨Nat.le_trans h1 r1, Nat.le_trans h2 r2,
            h3.trans r3, h4.trans r4⟩

theorem insertAll_shape :
    ∀ (ps : List Nat) (idx : Nat) (s s' : Sim) (sq : Int),
      s.inactive_list.length ≤ s.size_inactive →
      s.active_list.length ≤ s.size_active →
      insertAll s sq ps idx = some s' →
      s'.inactive_list.length ≤ s'.size_inactive ∧
      s'.active_list.length ≤ s'.size_active ∧
      s'.size_active = s.size_active ∧ s'.size_inactive = s.size_inactive := by
  intro ps
  induction ps with
  | nil =>
    intro idx s s' sq hI hA h
    unfold insertAll at h
    injection h with h
    subst h
    exact ⟨hI, hA, rfl, rfl⟩
  | cons p pt ih =>
    intro idx s s' sq hI hA h
    unfold insertAll at h
    replace h : (match Sim.insert_inactive s (Int.ofNat p) sq idx with
      | none => none
      | some s₂ => insertAll s₂ sq pt (idx + 1)) = some s' := h
    cases hi : Sim.insert_inactive s (Int.ofNat p) sq idx with
    | none => rw [hi] at h; cases h
    | some s₂ =>
      rw [hi] at h
      replace h : insertAll s₂ sq pt (idx + 1) = some s' := h
      obtain ⟨i1, i2, i3, i4⟩ := insert_inactive_shape _ _ _ _ _ hi
      obtain ⟨h1, h2, h3, h4⟩ := ih _ _ _ _ (by omega) (by omega) h
      exact ⟨h1, h2, h3.trans i3, h4.trans i4⟩

theorem step_shape (s : Sim) (e : Event) (s' : Sim)
    (hI : s.inactive_list.length ≤ s.size_inactive)
    (hA : s.active_list.length ≤ s.size_active)
    (h : step s e = some s') :
    s'.inactive_list.length ≤ s'.size_inactive ∧
    s'.active_list.length ≤ s'.size_active ∧
    s'.size_active = s.size_active ∧ s'.size_inactive = s.size_inactive := by
  cases e with
  | A sq n =>
    replace h : stepA s sq n = some s' := h
    simp only [stepA] at h
    cases h₀ : (if ((n : Int) - (s.bs.count_free_pages : Int)) ≤ 0 then some s
        else s.reclaim_n_pages ((n : Int) - (s.bs.count_free_pages : Int)).toNat) with
    | none => rw [h₀] at h; cases h
    | some s₁ =>
      rw [h₀] at h
      have hs₁ : s₁.inactive_list.length ≤ s₁.size_inactive ∧
          s₁.active_list.length ≤ s₁.size_active ∧
          s₁.size_active = s.size_active ∧
          s₁.size_inactive = s.size_inactive := by
        split at h₀
        · injection h₀ with h₀; subst h₀; exact ⟨hI, hA, rfl, rfl⟩
        · replace h₀ : Sim.reclaimN s
              ((n : Int) - (s.bs.count_free_pages : Int)).toNat none = some s₁ := h₀
          obtain ⟨r1, r2, r3, r4⟩ := reclaimN_shape _ _ _ _ h₀
          exact ⟨by omega, by omega, r3, r4⟩
      obtain ⟨s1I, s1A, s1sa, s1si⟩ := hs₁
      replace h : (match s₁.bs.request_pages sq n with
        | none => none
        | some (page_ids, bs₁) =>
          match BuddySystem.allocate bs₁ page_ids sq none with
          | none => none
          | some bs₂ => insertAll { s₁ with bs := bs₂ } sq page_ids 0) =
          some s' := h
      cases h₁ : s₁.bs.request_pages sq n with
      | none => rw [h₁] at h; cases h
      | some r =>
        obtain ⟨ids, bs₁⟩ := r
        rw [h₁] at h
        replace h : (match BuddySystem.allocate bs₁ ids sq none with
          | none => none
          | some bs₂ => insertAll { s₁ with bs := bs₂ } sq ids 0) =
            some s' := h
        cases h₂ : BuddySystem.allocate bs₁ ids sq none with
        | none => rw [h₂] at h; cases h
        | some bs₂ =>
          rw [h₂] at h
          replace h : insertAll { s₁ with bs := bs₂ } sq ids 0 = some s' := h
          obtain ⟨q1, q2, q3, q4⟩ :=
            insertAll_shape ids 0 { s₁ with bs := bs₂ } s' sq s1I s1A h
          exact ⟨q1, q2, q3.trans s1sa, q4.trans s1si⟩
  | X sq n =>
    replace h : stepX s sq n = some s' := h
    simp only [stepX] at h
    split at h
    · obtain ⟨p1, p2, p3, p4⟩ := promote_shape s _ s' hI hA h
      refine ⟨?_, ?_, p3, p4⟩
      · rw [p4]; exact p1
      · rw [p3]; exact p2
    · simp only [xFault] at h
      cases h₀ : (if ((1 : Int) - (s.bs.count_free_pages : Int)) ≤ 0 then some s
          else s.reclaim_n_pages ((1 : Int) - (s.bs.count_free_pages : Int)).toNat) with
      | none => rw [h₀] at h; cases h
      | some s₁ =>
        rw [h₀] at h
        have hs₁ : s₁.inactive_list.length ≤ s₁.size_inactive ∧
            s₁.active_list.length ≤ s₁.size_active ∧
            s₁.size_active = s.size_active ∧
            s₁.size_inactive = s.size_inactive := by
          split at h₀
          · injection h₀ with h₀; subst h₀; exact ⟨hI, hA, rfl, rfl⟩
          · replace h₀ : Sim.reclaimN s
                ((1 : Int) - (s.bs.count_free_pages : Int)).toNat none = some s₁ := h₀
            obtain ⟨r1, r2, r3, r4⟩ := reclaimN_shape _ _ _ _ h₀
            exact ⟨by omega, by omega, r3, r4⟩
        obtain ⟨s1I, s1A, s1sa, s1si⟩ := hs₁
        replace h : (match s₁.bs.request_pages sq 1 with
          | none => none
          | some (page_ids, bs₁) =>
            match BuddySystem.allocate bs₁ page_ids sq (some n) with
            | none => none
            | some bs₂ =>
              match page_ids.getLast? with
              | none => none
              | some p =>
                Sim.insert_inactive { s₁ with bs := bs₂ } (Int.ofNat p) sq n) =
            some s' := h
        cases h₁ : s₁.bs.request_pages sq 1 with
        | none => rw [h₁] at h; cases h
        | some r =>
          obtain ⟨ids, bs₁⟩ := r
          rw [h₁] at h
          replace h : (match BuddySystem.allocate bs₁ ids sq (some n) with
            | none => none
            | some bs₂ =>
              match ids.getLast? with
              | none => none
              | some p =>
                Sim.insert_inactive { s₁ with bs := bs₂ } (Int.ofNat p) sq n) =
              some s' := h
          cases h₂ : BuddySystem.allocate bs₁ ids sq (some n) with
          | none => rw [h₂] at h; cases h
          | some bs₂ =>
            rw [h₂] at h
            replace h : (match ids.getLast? with
              | none => none
              | some p =>
                Sim.insert_inactive { s₁ with bs := bs₂ } (Int.ofNat p) sq n) =
                some s' := h
            cases h₃ : ids.getLast? with
            | none => rw [h₃] at h; cases h
            | some p =>
              rw [h₃] at h
              replace h : Sim.insert_inactive { s₁ with bs := bs₂ }
                  (Int.ofNat p) sq n = some s' := h
              obtain ⟨q1, q2, q3, q4⟩ := insert_inactive_shape _ _ _ _ _ h
              dsimp only at q1 q2 q3 q4
              exact ⟨by omega, by omega, q3.trans s1sa, q4.trans s1si⟩
  | F sq n =>
    replace h : some (Sim.delete { s with bs := (s.bs.deallocate sq n).2 }
        (s.bs.deallocate sq n).1) = some s' := h
    injection h with h
    subst h
    exact ⟨Nat.le_trans (pyDelete_length_le _ _) hI,
      Nat.le_trans (pyDelete_length_le _ _) hA, rfl, rfl⟩

theorem run_shape :
    ∀ (tr : List Event) (s s' : Sim),
      s.inactive_list.length ≤ s.size_inactive →
      s.active_list.length ≤ s.size_active →
      run s tr = some s' →
      s'.inactive_list.length ≤ s'.size_inactive ∧
      s'.active_list.length ≤ s'.size_active ∧
      s'.size_active = s.size_active ∧ s'.size_inactive = s.size_inactive := by
  intro tr
  induction tr with
  | nil =>
    intro s s' hI hA h
    replace h : some s = some s' := h
    injection h with h
    subst h
    exact ⟨hI, hA, rfl, rfl⟩
  | cons e es ih =>
    intro s s' hI hA h
    replace h : (match step s e with
      | none => none
      | some s₂ => run s₂ es) = some s' := h
    cases hs : step s e with
    | none => rw [hs] at h; cases h
    | some s₂ =>
      rw [hs] at h
      replace h : run s₂ es = some s' := h
      obtain ⟨p1, p2, p3, p4⟩ := step_shape s e s₂ hI hA hs
      obtain ⟨q1, q2, q3, q4⟩ := ih s₂ s' p1 p2 h
      exact ⟨q1, q2, q3.trans p3, q4.trans p4⟩

/-- C6: after processing any trace that completes, the active list has at
    most `size_active` nodes and the inactive list at most `size_inactive`
    (the configured capacities of `Sim.init`). -/
theorem C6_capacity_invariant (M a i : Nat) (tr : List Event) (s' : Sim)
    (hrun : run (Sim.init M a i) tr = some s') :
    s'.active_list.length ≤ a ∧ s'.inactive_list.length ≤ i := by
  obtain ⟨q1, q2, q3, q4⟩ := run_shape tr (Sim.init M a i) s'
    (by simp [Sim.init]) (by simp [Sim.init]) hrun
  exact ⟨le_of_le_of_eq q2 q3, le_of_le_of_eq q1 q4⟩

/-- Witness state for C6. -/
def c6wit : Sim :=
  (run (Sim.init 8 2 2) [Event.A 1 4]).getD (Sim.init 8 2 2)

theorem C6_capacity_invariant_witness :
    run (Sim.init 8 2 2) [Event.A 1 4] = some c6wit ∧
    c6wit.active_list.length ≤ 2 ∧ c6wit.inactive_list.length ≤ 2 :=
  ⟨rfl, C6_capacity_invariant 8 2 2 [Event.A 1 4] c6wit rfl⟩

/- ----------------------------------------------------------------------- -/
/- C1: the partition invariant of the buddy free lists.                     -/
/- ----------------------------------------------------------------------- -/

/-- All page indices covered by the registered blocks of the free lists,
    with multiplicity: order-`j` start id `st` covers `[st, st + 2^j)`. -/
def covAux : List (List Nat) → Nat → List Nat
  | [], _ => []
  | l :: ls, j => l.flatMap (fun st => List.range' st (2 ^ j)) ++ covAux ls (j + 1)

def covOf (bl : List (List Nat)) : List Nat := covAux bl 0

/-- Indices (offset by `i`) of the page-array entries that the rebuild scan
    treats as free (`pages[i] < 0`). -/
def freeIdx : List Int → Nat → List Nat
  | [], _ => []
  | x :: xs, i => if x < 0 then i :: freeIdx xs (i + 1) else freeIdx xs (i + 1)

theorem covAux_replicate_nil (c : Nat) :
    ∀ j, covAux (List.replicate c ([] : List Nat)) j = [] := by
  induction c with
  | zero => intro j; rfl
  | succ c ih =>
    intro j
    show ([] : List Nat).flatMap _ ++ covAux (List.replicate c []) (j + 1) = []
    rw [List.flatMap_nil, List.nil_append, ih]

theorem covAux_set_append :
    ∀ (bl : List (List Nat)) (j j₀ st : Nat), j < bl.length →
      List.Perm (covAux (bl.set j (bl.getD j [] ++ [st])) j₀)
        (covAux bl j₀ ++ List.range' st (2 ^ (j₀ + j))) := by
  intro bl
  induction bl with
  | nil => intro j j₀ st hj; simp at hj
  | cons l ls ih =>
    intro j j₀ st hj
    cases j with
    | zero =>
      show List.Perm
        ((l ++ [st]).flatMap (fun s => List.range' s (2 ^ j₀)) ++ covAux ls (j₀ + 1))
        ((l.flatMap (fun s => List.range' s (2 ^ j₀)) ++ covAux ls (j₀ + 1)) ++
          List.range' st (2 ^ (j₀ + 0)))
      rw [List.flatMap_append, List.flatMap_cons, List.flatMap_nil, List.append_nil,
        Nat.add_zero, List.append_assoc, List.append_assoc]
      exact List.Perm.append_left _ List.perm_append_comm
    | succ j' =>
      have hj' : j' < ls.length := by
        simpa using Nat.lt_of_succ_lt_succ hj
      show List.Perm
        (l.flatMap (fun s => List.range' s (2 ^ j₀)) ++
          covAux (ls.set j' (ls.getD j' [] ++ [st])) (j₀ + 1))
        ((l.flatMap (fun s => List.range' s (2 ^ j₀)) ++ covAux ls (j₀ + 1)) ++
          List.range' st (2 ^ (j₀ + (j' + 1))))
      have harith : j₀ + 1 + j' = j₀ + (j' + 1) := by omega
      have hperm := ih j' (j₀ + 1) st hj'
      rw [harith] at hperm
      rw [List.append_assoc]
      exact List.Perm.append_left _ hperm

theorem partAux_length :
    ∀ (fuel : Nat) (bl : List (List Nat)) (l j st' : Nat),
      (BuddySystem.partAux fuel bl st' l j).length = bl.length := by
  intro fuel
  induction fuel with
  | zero => intro bl l j st'; rfl
  | succ f ih =>
    intro bl l j st'
    unfold BuddySystem.partAux
    split
    · rfl
    · split
      · rw [ih]
        exact List.length_set _ _ _
      · exact ih _ _ _ _

theorem covOf_def (bl : List (List Nat)) : covOf bl = covAux bl 0 := rfl

theorem covOf_partAux :
    ∀ (fuel l : Nat) (bl : List (List Nat)) (st j : Nat),
      l ≤ fuel → l < 2 ^ (bl.length - j) →
      List.Perm (covOf (BuddySystem.partAux fuel bl st l j))
        (covOf bl ++ List.range' st (l * 2 ^ j)) := by
  intro fuel
  induction fuel with
  | zero =>
    intro l bl st j hf hlt
    have h0 : l = 0 := Nat.le_zero.mp hf
    subst h0
    simp [BuddySystem.partAux]
  | succ f ih =>
    intro l bl st j hf hlt
    unfold BuddySystem.partAux
    by_cases h0 : l = 0
    · subst h0; simp
    · rw [if_neg h0]
      have hjlt : j < bl.length := by
        by_contra hge
        push_neg at hge
        have hz : bl.length - j = 0 := by omega
        rw [hz] at hlt
        have : l < 1 := by simpa using hlt
        omega
      have hpow : 2 ^ (bl.length - j) = 2 * 2 ^ (bl.length - (j + 1)) := by
        have hs : bl.length - j = (bl.length - (j + 1)) + 1 := by omega
        rw [hs, Nat.pow_succ]
        ring
      by_cases h2 : l % 2 = 1
      · rw [if_pos h2]
        have hlen' : (bl.set j (bl.getD j [] ++ [st])).length = bl.length :=
          List.length_set _ _ _
        have hih := ih (l / 2) (bl.set j (bl.getD j [] ++ [st])) (st + 2 ^ j)
          (j + 1) (by omega) (by rw [hlen']; omega)
        have hset := covAux_set_append bl j 0 st hjlt
        rw [Nat.zero_add] at hset
        obtain ⟨m, hm⟩ : ∃ m, l = 2 * m + 1 := ⟨l / 2, by omega⟩
        have hl2 : l / 2 = m := by omega
        have hcomb : List.range' st (2 ^ j) ++
            List.range' (st + 2 ^ j) (l / 2 * 2 ^ (j + 1)) =
            List.range' st (l * 2 ^ j) := by
          have hr := List.range'_append st (2 ^ j) (l / 2 * 2 ^ (j + 1)) 1
          simp only [one_mul] at hr
          rw [hr]
          congr 1
          rw [hl2, hm, Nat.pow_succ]
          ring
        refine hih.trans ((List.Perm.append_right _ hset).trans ?_)
        rw [List.append_assoc, hcomb]
        exact List.Perm.refl _
      · rw [if_neg h2]
        have hih := ih (l / 2) bl st (j + 1) (by omega) (by omega)
        obtain ⟨m, hm⟩ : ∃ m, l = 2 * m := ⟨l / 2, by omega⟩
        have hl2 : l / 2 = m := by omega
        have harith : l / 2 * 2 ^ (j + 1) = l * 2 ^ j := by
          rw [hl2, hm, Nat.pow_succ]
          ring
        rw [harith] at hih
        exact hih

theorem covOf_partition (bl : List (List Nat)) (p1 L : Nat)
    (hlt : L < 2 ^ bl.length) :
    List.Perm (covOf (BuddySystem.partition_and_return bl p1 L))
      (covOf bl ++ List.range' p1 L) := by
  have := covOf_partAux L L bl p1 0 (Nat.le_refl _) (by simpa using hlt)
  simpa using this

theorem updateLoop_nil (bl : List (List Nat)) (p1 p2 : Nat) (st : Bool) :
    BuddySystem.updateBuddyLoop bl [] p1 p2 st =
      if st then BuddySystem.partition_and_return bl p1 (p2 - p1) else bl :=
  rfl

theorem updateLoop_cons (bl : List (List Nat)) (x : Int) (xs : List Int)
    (p1 p2 : Nat) (st : Bool) :
    BuddySystem.updateBuddyLoop bl (x :: xs) p1 p2 st =
      if x < 0 then BuddySystem.updateBuddyLoop bl xs p1 (p2 + 1) true
      else if st then
        BuddySystem.updateBuddyLoop
          (BuddySystem.partition_and_return bl p1 (p2 - p1)) xs (p2 + 1)
          (p2 + 1) true
      else BuddySystem.updateBuddyLoop bl xs (p1 + 1) (p2 + 1) st :=
  rfl

theorem perm_of_eq {α : Type} {l₁ l₂ : List α} (h : l₁ = l₂) :
    List.Perm l₁ l₂ :=
  h ▸ List.Perm.refl _

theorem covOf_updateLoop_true :
    ∀ (xs : List Int) (bl : List (List Nat)) (p1 p2 : Nat),
      p1 ≤ p2 → (p2 - p1) + xs.length < 2 ^ bl.length →
      List.Perm (covOf (BuddySystem.updateBuddyLoop bl xs p1 p2 true))
        (covOf bl ++ List.range' p1 (p2 - p1) ++ freeIdx xs p2) := by
  intro xs
  induction xs with
  | nil =>
    intro bl p1 p2 h12 hlt
    rw [updateLoop_nil, if_pos rfl]
    have hp := covOf_partition bl p1 (p2 - p1) (by simp at hlt; omega)
    refine hp.trans (perm_of_eq ?_)
    simp [freeIdx]
  | cons x xs ih =>
    intro bl p1 p2 h12 hlt
    rw [updateLoop_cons]
    by_cases hx : x < 0
    · rw [if_pos hx]
      have hihx := ih bl p1 (p2 + 1) (by omega) (by simp at hlt ⊢; omega)
      refine hihx.trans (perm_of_eq ?_)
      have h1 : List.range' p1 (p2 + 1 - p1) =
          List.range' p1 (p2 - p1) ++ [p2] := by
        have he : p2 + 1 - p1 = (p2 - p1) + 1 := by omega
        rw [he, List.range'_concat]
        congr 2
        omega
      have h2 : freeIdx (x :: xs) p2 = p2 :: freeIdx xs (p2 + 1) := by
        simp [freeIdx, hx]
      rw [h1, h2]
      simp [List.append_assoc]
    · rw [if_neg hx, if_pos rfl]
      have hlen' : (BuddySystem.partition_and_return bl p1 (p2 - p1)).length =
          bl.length := partAux_length _ _ _ _ _
      have hihx := ih (BuddySystem.partition_and_return bl p1 (p2 - p1))
        (p2 + 1) (p2 + 1) (Nat.le_refl _) (by rw [hlen']; simp at hlt; omega)
      have hp := covOf_partition bl p1 (p2 - p1) (by simp at hlt; omega)
      refine hihx.trans ?_
      have h2 : freeIdx (x :: xs) p2 = freeIdx xs (p2 + 1) := by
        simp [freeIdx, hx]
      rw [h2]
      simp only [Nat.sub_self, List.range'_zero, List.append_nil]
      exact List.Perm.append_right _ hp

theorem covOf_updateLoop_false :
    ∀ (xs : List Int) (bl : List (List Nat)) (p2 : Nat),
      xs.length < 2 ^ bl.length →
      List.Perm (covOf (BuddySystem.updateBuddyLoop bl xs p2 p2 false))
        (covOf bl ++ freeIdx xs p2) := by
  intro xs
  induction xs with
  | nil =>
    intro bl p2 hlt
    rw [updateLoop_nil]
    simp [freeIdx]
  | cons x xs ih =>
    intro bl p2 hlt
    rw [updateLoop_cons]
    by_cases hx : x < 0
    · rw [if_pos hx]
      have ht := covOf_updateLoop_true xs bl p2 (p2 + 1) (by omega)
        (by simp at hlt ⊢; omega)
      refine ht.trans (perm_of_eq ?_)
      have h1 : List.range' p2 (p2 + 1 - p2) = [p2] := by
        have he : p2 + 1 - p2 = 1 := by omega
        rw [he]
        simp
      have h2 : freeIdx (x :: xs) p2 = p2 :: freeIdx xs (p2 + 1) := by
        simp [freeIdx, hx]
      rw [h1, h2]
      simp [List.append_assoc]
    · rw [if_neg hx]
      show List.Perm
        (covOf (BuddySystem.updateBuddyLoop bl xs (p2 + 1) (p2 + 1) false)) _
      have h2 : freeIdx (x :: xs) p2 = freeIdx xs (p2 + 1) := by
        simp [freeIdx, hx]
      rw [h2]
      exact ih bl (p2 + 1) (by simp at hlt; omega)

theorem rebuild_covers (c : Nat) (pages : List Int)
    (hlen : pages.length < 2 ^ c) :
    List.Perm (covOf (BuddySystem.rebuildLists c pages)) (freeIdx pages 0) := by
  have h := covOf_updateLoop_false pages (List.replicate c ([] : List Nat)) 0
    (by simpa using hlen)
  have hz : covOf (List.replicate c ([] : List Nat)) = [] :=
    covAux_replicate_nil c 0
  rw [hz] at h
  simpa using h

theorem freeIdx_ge :
    ∀ (xs : List Int) (i p : Nat), p ∈ freeIdx xs i → i ≤ p := by
  intro xs
  induction xs with
  | nil => intro i p h; simp [freeIdx] at h
  | cons x xs ih =>
    intro i p h
    simp only [freeIdx] at h
    split at h
    · rcases List.mem_cons.mp h with rfl | h
      · exact Nat.le_refl _
      · exact Nat.le_of_succ_le (ih (i + 1) p h)
    · exact Nat.le_of_succ_le (ih (i + 1) p h)

theorem freeIdx_nodup :
    ∀ (xs : List Int) (i : Nat), (freeIdx xs i).Nodup := by
  intro xs
  induction xs with
  | nil => intro i; simp [freeIdx]
  | cons x xs ih =>
    intro i
    simp only [freeIdx]
    split
    · refine List.nodup_cons.mpr ⟨?_, ih (i + 1)⟩
      intro hmem
      have := freeIdx_ge xs (i + 1) i hmem
      omega
    · exact ih (i + 1)

theorem freeIdx_mem :
    ∀ (xs : List Int) (i p : Nat),
      p ∈ freeIdx xs i ↔
        i ≤ p ∧ p - i < xs.length ∧ xs.getD (p - i) 0 < 0 := by
  intro xs
  induction xs with
  | nil => intro i p; simp [freeIdx]
  | cons x xs ih =>
    intro i p
    simp only [freeIdx]
    split
    · next hx =>
      constructor
      · intro h
        rcases List.mem_cons.mp h with rfl | h
        · exact ⟨Nat.le_refl _, by simp, by simpa using hx⟩
        · obtain ⟨h1, h2, h3⟩ := (ih (i + 1) p).mp h
          refine ⟨by omega, by simp; omega, ?_⟩
          have he : p - i = (p - (i + 1)) + 1 := by omega
          rw [he, List.getD_cons_succ]
          exact h3
      · rintro ⟨h1, h2, h3⟩
        by_cases hpi : p = i
        · subst hpi
          exact List.mem_cons_self _ _
        · refine List.mem_cons.mpr (Or.inr ((ih (i + 1) p).mpr ⟨by omega, ?_, ?_⟩))
          · simp at h2; omega
          · have he : p - i = (p - (i + 1)) + 1 := by omega
            rw [he, List.getD_cons_succ] at h3
            exact h3
    · next hx =>
      rw [ih (i + 1) p]
      constructor
      · rintro ⟨h1, h2, h3⟩
        refine ⟨by omega, by simp; omega, ?_⟩
        have he : p - i = (p - (i + 1)) + 1 := by omega
        rw [he, List.getD_cons_succ]
        exact h3
      · rintro ⟨h1, h2, h3⟩
        by_cases hpi : p = i
        · subst hpi
          simp at h3
          omega
        · refine ⟨by omega, ?_, ?_⟩
          · simp at h2; omega
          · have he : p - i = (p - (i + 1)) + 1 := by omega
            rw [he, List.getD_cons_succ] at h3
            exact h3

/-- The buddy free lists agree with a full rebuild from the page array; this
    is restored by `update_buddy_lists` after every mutation of `pages`. -/
def bsInvA (b : BuddySystem) : Prop :=
  b.buddy_lists = BuddySystem.rebuildLists b.buddy_count b.pages

def InvA (s : Sim) : Prop := bsInvA s.bs

theorem bsInvA_update (b : BuddySystem) :
    bsInvA (BuddySystem.update_buddy_lists b) := rfl

theorem deallocate_bsInvA (b : BuddySystem) (sq : Int) (n : Nat) :
    bsInvA (b.deallocate sq n).2 := rfl

theorem request_bsInvA (b : BuddySystem) (sq : Int) (num : Nat)
    (ids : List Nat) (bs' : BuddySystem)
    (h : b.request_pages sq num = some (ids, bs')) : bsInvA bs' := by
  unfold BuddySystem.request_pages at h
  split at h
  · cases h
  · dsimp only at h
    cases hp : BuddySystem.popFB b.buddy_lists (clog2 num)
        (b.buddy_count - clog2 num) with
    | some r =>
      obtain ⟨a0, bl0⟩ := r
      rw [hp] at h
      replace h : some (List.range' a0 num,
          BuddySystem.update_buddy_lists
            { b with buddy_lists := bl0
                     pages := BuddySystem.markRange b.pages a0 num sq }) =
          some (ids, bs') := h
      injection h with h
      injection h with h1 h2
      subst h2
      exact bsInvA_update _
    | none =>
      rw [hp] at h
      replace h : some ((BuddySystem.discontLoop sq b.pages 0 num).2,
          BuddySystem.update_buddy_lists
            { b with pages := (BuddySystem.discontLoop sq b.pages 0 num).1 }) =
          some (ids, bs') := h
      injection h with h
      injection h with h1 h2
      subst h2
      exact bsInvA_update _

theorem allocate_frame (b : BuddySystem) (ids : List Nat) (sq : Int)
    (idx : Option Nat) (b₂ : BuddySystem)
    (h : BuddySystem.allocate b ids sq idx = some b₂) :
    b₂.buddy_count = b.buddy_count ∧ b₂.buddy_lists = b.buddy_lists ∧
    b₂.pages = b.pages := by
  unfold BuddySystem.allocate at h
  split at h
  · injection h with h
    subst h
    exact ⟨rfl, rfl, rfl⟩
  · split at h
    · cases h
    · split at h
      · split at h
        · cases h
        · injection h with h
          subst h
          exact ⟨rfl, rfl, rfl⟩
      · cases h

theorem reclaim_InvA (s : Sim) (p sq : Int) (n : Nat) :
    InvA (s.reclaim p sq n) :=
  deallocate_bsInvA _ _ _

theorem evictLoop_InvA :
    ∀ (k : Nat) (s s' : Sim), InvA s → Sim.evictLoop s k = some s' →
      InvA s' := by
  intro k
  induction k with
  | zero =>
    intro s s' hA h
    replace h : some s = some s' := h
    injection h with h
    subst h
    exact hA
  | succ kk ih =>
    intro s s' hA h
    unfold Sim.evictLoop at h
    cases hil : s.inactive_list with
    | nil => rw [hil] at h; cases h
    | cons nd rest =>
      rw [hil] at h
      exact ih _ _ (reclaim_InvA _ _ _ _) h

theorem insert_inactive_InvA (s : Sim) (pid sq : Int) (n : Nat) (s' : Sim)
    (hA : InvA s) (h : s.insert_inactive pid sq n = some s') : InvA s' := by
  unfold Sim.insert_inactive at h
  dsimp only at h
  split at h
  · exact evictLoop_InvA _
      { s with inactive_list := s.inactive_list ++ [(pid, sq, n)] } s' hA h
  · injection h with h
    subst h
    exact hA

theorem demoteLoop_InvA :
    ∀ (k : Nat) (s s' : Sim), InvA s → Sim.demoteLoop s k = some s' →
      InvA s' := by
  intro k
  induction k with
  | zero =>
    intro s s' hA h
    replace h : some s = some s' := h
    injection h with h
    subst h
    exact hA
  | succ kk ih =>
    intro s s' hA h
    unfold Sim.demoteLoop at h
    cases hal : s.active_list with
    | nil => rw [hal] at h; cases h
    | cons nd rest =>
      rw [hal] at h
      replace h : (match Sim.insert_inactive { s with active_list := rest }
          nd.1 nd.2.1 nd.2.2 with
        | none => none
        | some s₂ => Sim.demoteLoop s₂ kk) = some s' := h
      cases hi : Sim.insert_inactive { s with active_list := rest }
          nd.1 nd.2.1 nd.2.2 with
      | none => rw [hi] at h; cases h
      | some s₂ =>
        rw [hi] at h
        replace h : Sim.demoteLoop s₂ kk = some s' := h
        exact ih _ _
          (insert_inactive_InvA { s with active_list := rest } _ _ _ _ hA hi) h

theorem promote_InvA (s : Sim) (p : Int) (s' : Sim)
    (hA : InvA s) (h : s.promote p = some s') : InvA s' := by
  simp only [Sim.promote] at h
  split at h
  · split at h
    · exact demoteLoop_InvA _ _ _ (by exact hA) h
    · injection h with h
      subst h
      exact hA
  · injection h with h
    subst h
    exact hA

theorem reclaimN_InvA :
    ∀ (k : Nat) (last : Option Node) (s s' : Sim), InvA s →
      Sim.reclaimN s k last = some s' → InvA s' := by
  intro k
  induction k with
  | zero =>
    intro last s s' hA h
    replace h : some s = some s' := h
    injection h with h
    subst h
    exact hA
  | succ kk ih =>
    intro last s s' hA h
    obtain ⟨bs, act, inact, sa, si⟩ := s
    cases inact with
    | cons nd rest =>
      replace h : Sim.reclaimN
          (Sim.reclaim (⟨bs, act, rest, sa, si⟩ : Sim) nd.1 nd.2.1 nd.2.2)
          kk (some nd) = some s' := h
      exact ih _ _ _ (reclaim_InvA _ _ _ _) h
    | nil =>
      cases act with
      | cons nd rest =>
        replace h : Sim.reclaimN
            (Sim.reclaim (⟨bs, rest, [], sa, si⟩ : Sim) nd.1 nd.2.1 nd.2.2)
            kk (some nd) = some s' := h
        exact ih _ _ _ (reclaim_InvA _ _ _ _) h
      | nil =>
        cases last with
        | none =>
          replace h : (none : Option Sim) = some s' := h
          cases h
        | some nd =>
          replace h : Sim.reclaimN
              (Sim.reclaim (⟨bs, [], [], sa, si⟩ : Sim) nd.1 nd.2.1 nd.2.2)
              kk (some nd) = some s' := h
          exact ih _ _ _ (reclaim_InvA _ _ _ _) h

theorem insertAll_InvA :
    ∀ (ps : List Nat) (idx : Nat) (s s' : Sim) (sq : Int), InvA s →
      insertAll s sq ps idx = some s' → InvA s' := by
  intro ps
  induction ps with
  | nil =>
    intro idx s s' sq hA h
    replace h : some s = some s' := h
    injection h with h
    subst h
    exact hA
  | cons p pt ih =>
    intro idx s s' sq hA h
    replace h : (match Sim.insert_inactive s (Int.ofNat p) sq idx with
      | none => none
      | some s₂ => insertAll s₂ sq pt (idx + 1)) = some s' := h
    cases hi : Sim.insert_inactive s (Int.ofNat p) sq idx with
    | none => rw [hi] at h; cases h
    | some s₂ =>
      rw [hi] at h
      replace h : insertAll s₂ sq pt (idx + 1) = some s' := h
      exact ih _ _ _ _ (insert_inactive_InvA _ _ _ _ _ hA hi) h

theorem stepA_InvA (s : Sim) (sq : Int) (n : Nat) (s' : Sim)
    (h : stepA s sq n = some s') : InvA s' := by
  simp only [stepA] at h
  cases h₀ : (if ((n : Int) - (s.bs.count_free_pages : Int)) ≤ 0 then some s
      else s.reclaim_n_pages ((n : Int) - (s.bs.count_free_pages : Int)).toNat) with
  | none => rw [h₀] at h; cases h
  | some s₁ =>
    rw [h₀] at h
    replace h : (match s₁.bs.request_pages sq n with
      | none => none
      | some (page_ids, bs₁) =>
        match BuddySystem.allocate bs₁ page_ids sq none with
        | none => none
        | some bs₂ => insertAll { s₁ with bs := bs₂ } sq page_ids 0) =
        some s' := h
    cases h₁ : s₁.bs.request_pages sq n with
    | none => rw [h₁] at h; cases h
    | some r =>
      obtain ⟨ids, bs₁⟩ := r
      rw [h₁] at h
      replace h : (match BuddySystem.allocate bs₁ ids sq none with
        | none => none
        | some bs₂ => insertAll { s₁ with bs := bs₂ } sq ids 0) = some s' := h
      cases h₂ : BuddySystem.allocate bs₁ ids sq none with
      | none => rw [h₂] at h; cases h
      | some bs₂ =>
        rw [h₂] at h
        replace h : insertAll { s₁ with bs := bs₂ } sq ids 0 = some s' := h
        have hb1 : bsInvA bs₁ := request_bsInvA _ _ _ _ _ h₁
        have hfr := allocate_frame _ _ _ _ _ h₂
        have hA2 : InvA { s₁ with bs := bs₂ } := by
          show bsInvA bs₂
          unfold bsInvA
          rw [hfr.1, hfr.2.1, hfr.2.2]
          exact hb1
        exact insertAll_InvA _ _ _ _ _ hA2 h

theorem xFault_InvA (s : Sim) (sq : Int) (n : Nat) (s' : Sim)
    (h : xFault s sq n = some s') : InvA s' := by
  simp only [xFault] at h
  cases h₀ : (if ((1 : Int) - (s.bs.count_free_pages : Int)) ≤ 0 then some s
      else s.reclaim_n_pages ((1 : Int) - (s.bs.count_free_pages : Int)).toNat) with
  | none => rw [h₀] at h; cases h
  | some s₁ =>
    rw [h₀] at h
    replace h : (match s₁.bs.request_pages sq 1 with
      | none => none
      | some (page_ids, bs₁) =>
        match BuddySystem.allocate bs₁ page_ids sq (some n) with
        | none => none
        | some bs₂ =>
          match page_ids.getLast? with
          | none => none
          | some p =>
            Sim.insert_inactive { s₁ with bs := bs₂ } (Int.ofNat p) sq n) =
        some s' := h
    cases h₁ : s₁.bs.request_pages sq 1 with
    | none => rw [h₁] at h; cases h
    | some r =>
      obtain ⟨ids, bs₁⟩ := r
      rw [h₁] at h
      replace h : (match BuddySystem.allocate bs₁ ids sq (some n) with
        | none => none
        | some bs₂ =>
          match ids.getLast? with
          | none => none
          | some p =>
            Sim.insert_inactive { s₁ with bs := bs₂ } (Int.ofNat p) sq n) =
          some s' := h
      cases h₂ : BuddySystem.allocate bs₁ ids sq (some n) with
      | none => rw [h₂] at h; cases h
      | some bs₂ =>
        rw [h₂] at h
        replace h : (match ids.getLast? with
          | none => none
          | some p =>
            Sim.insert_inactive { s₁ with bs := bs₂ } (Int.ofNat p) sq n) =
            some s' := h
        cases h₃ : ids.getLast? with
        | none => rw [h₃] at h; cases h
        | some p =>
          rw [h₃] at h
          replace h : Sim.insert_inactive { s₁ with bs := bs₂ }
              (Int.ofNat p) sq n = some s' := h
          have hb1 : bsInvA bs₁ := request_bsInvA _ _ _ _ _ h₁
          have hfr := allocate_frame _ _ _ _ _ h₂
          have hA2 : InvA { s₁ with bs := bs₂ } := by
            show bsInvA bs₂
            unfold bsInvA
            rw [hfr.1, hfr.2.1, hfr.2.2]
            exact hb1
          exact insert_inactive_InvA _ _ _ _ _ hA2 h

theorem stepF_InvA (s : Sim) (sq : Int) (n : Nat) (s' : Sim)
    (h : stepF s sq n = some s') : InvA s' := by
  replace h : some (Sim.delete { s with bs := (s.bs.deallocate sq n).2 }
      (s.bs.deallocate sq n).1) = some s' := h
  injection h with h
  subst h
  exact deallocate_bsInvA s.bs sq n

theorem step_preserves_InvA (s : Sim) (e : Event) (s' : Sim)
    (hA : InvA s) (h : step s e = some s') : InvA s' := by
  cases e with
  | A sq n => exact stepA_InvA _ _ _ _ h
  | F sq n => exact stepF_InvA _ _ _ _ h
  | X sq n =>
    replace h : stepX s sq n = some s' := h
    simp only [stepX] at h
    split at h
    · exact promote_InvA _ _ _ hA h
    · exact xFault_InvA _ _ _ _ h

theorem step_first_InvA (M a i : Nat) (e : Event) (s' : Sim)
    (h : step (Sim.init M a i) e = some s') : InvA s' := by
  cases e with
  | A sq n => exact stepA_InvA _ _ _ _ h
  | F sq n => exact stepF_InvA _ _ _ _ h
  | X sq n =>
    replace h : stepX (Sim.init M a i) sq n = some s' := h
    simp only [stepX] at h
    have hacc : (Sim.init M a i).bs.access sq n = -1 := rfl
    rw [hacc] at h
    rw [if_neg (by decide : ¬ ((0 : Int) ≤ -1))] at h
    exact xFault_InvA _ _ _ _ h

theorem run_preserves_InvA :
    ∀ (tr : List Event) (s s' : Sim), InvA s → run s tr = some s' →
      InvA s' := by
  intro tr
  induction tr with
  | nil =>
    intro s s' hA h
    replace h : some s = some s' := h
    injection h with h
    subst h
    exact hA
  | cons e es ih =>
    intro s s' hA h
    replace h : (match step s e with
      | none => none
      | some s₂ => run s₂ es) = some s' := h
    cases hs : step s e with
    | none => rw [hs] at h; cases h
    | some s₂ =>
      rw [hs] at h
      replace h : run s₂ es = some s' := h
      exact ih _ _ (step_preserves_InvA s e s₂ hA hs) h

/-- Well-formedness of the page array: every slot is -1 or a (non-negative)
    seqno, and the array is shorter than `2 ^ buddy_count` so that no
    partition chunk overflows the order range. -/
def Inv0 (s : Sim) : Prop :=
  (∀ x ∈ s.bs.pages, -1 ≤ x) ∧ s.bs.pages.length < 2 ^ s.bs.buddy_count

theorem foldl_set_length (sq : Int) :
    ∀ (l : List Nat) (pg : List Int),
      (l.foldl (fun pg p => pg.set p sq) pg).length = pg.length := by
  intro l
  induction l with
  | nil => intro pg; rfl
  | cons p l ih =>
    intro pg
    show (l.foldl _ (pg.set p sq)).length = pg.length
    rw [ih, List.length_set]

theorem foldl_set_mem (sq : Int) :
    ∀ (l : List Nat) (pg : List Int) (x : Int),
      x ∈ l.foldl (fun pg p => pg.set p sq) pg → x ∈ pg ∨ x = sq := by
  intro l
  induction l with
  | nil => intro pg x hx; exact Or.inl hx
  | cons p l ih =>
    intro pg x hx
    rcases ih (pg.set p sq) x hx with hx | hx
    · exact List.mem_or_eq_of_mem_set hx
    · exact Or.inr hx

theorem discont_fst_length (sq : Int) :
    ∀ (xs : List Int) (i need : Nat),
      (BuddySystem.discontLoop sq xs i need).1.length = xs.length := by
  intro xs
  induction xs with
  | nil => intro i need; rfl
  | cons x xs ih =>
    intro i need
    cases need with
    | zero => rfl
    | succ m =>
      show (if x = -1 then _ else _ : List Int × List Nat).1.length = _
      by_cases hx : x = -1
      · rw [if_pos hx]
        by_cases hm : m = 0
        · rw [if_pos hm]
          rfl
        · rw [if_neg hm]
          show (sq :: (BuddySystem.discontLoop sq xs (i + 1) m).1).length = _
          rw [List.length_cons, ih, List.length_cons]
      · rw [if_neg hx]
        show (x :: (BuddySystem.discontLoop sq xs (i + 1) (m + 1)).1).length = _
        rw [List.length_cons, ih, List.length_cons]

theorem discont_fst_mem (sq : Int) :
    ∀ (xs : List Int) (i need : Nat) (x : Int),
      x ∈ (BuddySystem.discontLoop sq xs i need).1 → x ∈ xs ∨ x = sq := by
  intro xs
  induction xs with
  | nil => intro i need x hx; cases hx
  | cons y xs ih =>
    intro i need x hx
    cases need with
    | zero => exact Or.inl hx
    | succ m =>
      by_cases hy : y = -1
      · by_cases hm : m = 0
        · replace hx : x ∈ sq :: xs := by
            simpa [BuddySystem.discontLoop, hy, hm] using hx
          rcases List.mem_cons.mp hx with rfl | hx
          · exact Or.inr rfl
          · exact Or.inl (List.mem_cons_of_mem _ hx)
        · replace hx : x ∈ sq :: (BuddySystem.discontLoop sq xs (i + 1) m).1 := by
            simpa [BuddySystem.discontLoop, hy, hm] using hx
          rcases List.mem_cons.mp hx with rfl | hx
          · exact Or.inr rfl
          · rcases ih (i + 1) m x hx with hx | hx
            · exact Or.inl (List.mem_cons_of_mem _ hx)
            · exact Or.inr hx
      · replace hx : x ∈ y :: (BuddySystem.discontLoop sq xs (i + 1) (m + 1)).1 := by
          simpa [BuddySystem.discontLoop, hy] using hx
        rcases List.mem_cons.mp hx with rfl | hx
        · exact Or.inl (List.mem_cons_self _ _)
        · rcases ih (i + 1) (m + 1) x hx with hx | hx
          · exact Or.inl (List.mem_cons_of_mem _ hx)
          · exact Or.inr hx

theorem request_frame (b : BuddySystem) (sq : Int) (num : Nat)
    (ids : List Nat) (bs' : BuddySystem)
    (h : b.request_pages sq num = some (ids, bs')) :
    bs'.buddy_count = b.buddy_count ∧ bs'.pages.length = b.pages.length ∧
    ∀ x ∈ bs'.pages, x ∈ b.pages ∨ x = sq := by
  unfold BuddySystem.request_pages at h
  split at h
  · cases h
  · dsimp only at h
    cases hp : BuddySystem.popFB b.buddy_lists (clog2 num)
        (b.buddy_count - clog2 num) with
    | some r =>
      obtain ⟨a0, bl0⟩ := r
      rw [hp] at h
      replace h : some (List.range' a0 num,
          BuddySystem.update_buddy_lists
            { b with buddy_lists := bl0
                     pages := BuddySystem.markRange b.pages a0 num sq }) =
          some (ids, bs') := h
      injection h with h
      injection h with h1 h2
      subst h2
      refine ⟨rfl, ?_, ?_⟩
      · exact foldl_set_length sq _ _
      · intro x hx
        exact foldl_set_mem sq _ _ x hx
    | none =>
      rw [hp] at h
      replace h : some ((BuddySystem.discontLoop sq b.pages 0 num).2,
          BuddySystem.update_buddy_lists
            { b with pages := (BuddySystem.discontLoop sq b.pages 0 num).1 }) =
          some (ids, bs') := h
      injection h with h
      injection h with h1 h2
      subst h2
      refine ⟨rfl, ?_, ?_⟩
      · exact discont_fst_length sq _ _ _
      · intro x hx
        exact discont_fst_mem sq _ _ _ x hx

theorem deallocate_frame (b : BuddySystem) (sq : Int) (n : Nat) :
    ((b.deallocate sq n).2).buddy_count = b.buddy_count ∧
    ((b.deallocate sq n).2).pages.length = b.pages.length ∧
    ∀ x ∈ ((b.deallocate sq n).2).pages, x ∈ b.pages ∨ x = -1 := by
  unfold BuddySystem.deallocate
  dsimp only
  split
  · refine ⟨rfl, List.length_set _ _ _, ?_⟩
    intro x hx
    exact List.mem_or_eq_of_mem_set hx
  · exact ⟨rfl, rfl, fun x hx => Or.inl hx⟩

theorem reclaim_Inv0 (s : Sim) (p sq : Int) (n : Nat)
    (h0 : Inv0 s) : Inv0 (s.reclaim p sq n) := by
  obtain ⟨hmem, hlt⟩ := h0
  obtain ⟨hc, hl, hm⟩ := deallocate_frame (s.delete p).bs sq n
  constructor
  · intro x hx
    rcases hm x hx with hx | hx
    · exact hmem x hx
    · omega
  · show ((s.delete p).bs.deallocate sq n).2.pages.length <
      2 ^ ((s.delete p).bs.deallocate sq n).2.buddy_count
    rw [hc, hl]
    exact hlt

theorem evictLoop_Inv0 :
    ∀ (k : Nat) (s s' : Sim), Inv0 s → Sim.evictLoop s k = some s' →
      Inv0 s' := by
  intro k
  induction k with
  | zero =>
    intro s s' h0 h
    replace h : some s = some s' := h
    injection h with h
    subst h
    exact h0
  | succ kk ih =>
    intro s s' h0 h
    unfold Sim.evictLoop at h
    cases hil : s.inactive_list with
    | nil => rw [hil] at h; cases h
    | cons nd rest =>
      rw [hil] at h
      exact ih _ _
        (reclaim_Inv0 { s with inactive_list := rest } nd.1 nd.2.1 nd.2.2
          (by exact h0)) h

theorem insert_inactive_Inv0 (s : Sim) (pid sq : Int) (n : Nat) (s' : Sim)
    (h0 : Inv0 s) (h : s.insert_inactive pid sq n = some s') : Inv0 s' := by
  unfold Sim.insert_inactive at h
  dsimp only at h
  split at h
  · exact evictLoop_Inv0 _
      { s with inactive_list := s.inactive_list ++ [(pid, sq, n)] } s' h0 h
  · injection h with h
    subst h
    exact h0

theorem demoteLoop_Inv0 :
    ∀ (k : Nat) (s s' : Sim), Inv0 s → Sim.demoteLoop s k = some s' →
      Inv0 s' := by
  intro k
  induction k with
  | zero =>
    intro s s' h0 h
    replace h : some s = some s' := h
    injection h with h
    subst h
    exact h0
  | succ kk ih =>
    intro s s' h0 h
    unfold Sim.demoteLoop at h
    cases hal : s.active_list with
    | nil => rw [hal] at h; cases h
    | cons nd rest =>
      rw [hal] at h
      replace h : (match Sim.insert_inactive { s with active_list := rest }
          nd.1 nd.2.1 nd.2.2 with
        | none => none
        | some s₂ => Sim.demoteLoop s₂ kk) = some s' := h
      cases hi : Sim.insert_inactive { s with active_list := rest }
          nd.1 nd.2.1 nd.2.2 with
      | none => rw [hi] at h; cases h
      | some s₂ =>
        rw [hi] at h
        replace h : Sim.demoteLoop s₂ kk = some s' := h
        exact ih _ _
          (insert_inactive_Inv0 { s with active_list := rest } _ _ _ _ h0 hi) h

theorem promote_Inv0 (s : Sim) (p : Int) (s' : Sim)
    (h0 : Inv0 s) (h : s.promote p = some s') : Inv0 s' := by
  simp only [Sim.promote] at h
  split at h
  · split at h
    · exact demoteLoop_Inv0 _ _ _ (by exact h0) h
    · injection h with h
      subst h
      exact h0
  · injection h with h
    subst h
    exact h0

theorem reclaimN_Inv0 :
    ∀ (k : Nat) (last : Option Node) (s s' : Sim), Inv0 s →
      Sim.reclaimN s k last = some s' → Inv0 s' := by
  intro k
  induction k with
  | zero =>
    intro last s s' h0 h
    replace h : some s = some s' := h
    injection h with h
    subst h
    exact h0
  | succ kk ih =>
    intro last s s' h0 h
    obtain ⟨bs, act, inact, sa, si⟩ := s
    cases inact with
    | cons nd rest =>
      replace h : Sim.reclaimN
          (Sim.reclaim (⟨bs, act, rest, sa, si⟩ : Sim) nd.1 nd.2.1 nd.2.2)
          kk (some nd) = some s' := h
      exact ih _ _ _ (reclaim_Inv0 _ _ _ _ (by exact h0)) h
    | nil =>
      cases act with
      | cons nd rest =>
        replace h : Sim.reclaimN
            (Sim.reclaim (⟨bs, rest, [], sa, si⟩ : Sim) nd.1 nd.2.1 nd.2.2)
            kk (some nd) = some s' := h
        exact ih _ _ _ (reclaim_Inv0 _ _ _ _ (by exact h0)) h
      | nil =>
        cases last with
        | none =>
          replace h : (none : Option Sim) = some s' := h
          cases h
        | some nd =>
          replace h : Sim.reclaimN
              (Sim.reclaim (⟨bs, [], [], sa, si⟩ : Sim) nd.1 nd.2.1 nd.2.2)
              kk (some nd) = some s' := h
          exact ih _ _ _ (reclaim_Inv0 _ _ _ _ (by exact h0)) h

theorem insertAll_Inv0 :
    ∀ (ps : List Nat) (idx : Nat) (s s' : Sim) (sq : Int), Inv0 s →
      insertAll s sq ps idx = some s' → Inv0 s' := by
  intro ps
  induction ps with
  | nil =>
    intro idx s s' sq h0 h
    replace h : some s = some s' := h
    injection h with h
    subst h
    exact h0
  | cons p pt ih =>
    intro idx s s' sq h0 h
    replace h : (match Sim.insert_inactive s (Int.ofNat p) sq idx with
      | none => none
      | some s₂ => insertAll s₂ sq pt (idx + 1)) = some s' := h
    cases hi : Sim.insert_inactive s (Int.ofNat p) sq idx with
    | none => rw [hi] at h; cases h
    | some s₂ =>
      rw [hi] at h
      replace h : insertAll s₂ sq pt (idx + 1) = some s' := h
      exact ih _ _ _ _ (insert_inactive_Inv0 s _ _ _ _ h0 hi) h

theorem stepA_Inv0 (s : Sim) (sq : Int) (n : Nat) (s' : Sim)
    (hsq : 0 ≤ sq) (h0 : Inv0 s) (h : stepA s sq n = some s') : Inv0 s' := by
  simp only [stepA] at h
  cases h₀ : (if ((n : Int) - (s.bs.count_free_pages : Int)) ≤ 0 then some s
      else s.reclaim_n_pages ((n : Int) - (s.bs.count_free_pages : Int)).toNat) with
  | none => rw [h₀] at h; cases h
  | some s₁ =>
    rw [h₀] at h
    have h01 : Inv0 s₁ := by
      split at h₀
      · injection h₀ with h₀; subst h₀; exact h0
      · replace h₀ : Sim.reclaimN s
            ((n : Int) - (s.bs.count_free_pages : Int)).toNat none = some s₁ := h₀
        exact reclaimN_Inv0 _ _ _ _ h0 h₀
    replace h : (match s₁.bs.request_pages sq n with
      | none => none
      | some (page_ids, bs₁) =>
        match BuddySystem.allocate bs₁ page_ids sq none with
        | none => none
        | some bs₂ => insertAll { s₁ with bs := bs₂ } sq page_ids 0) =
        some s' := h
    cases h₁ : s₁.bs.request_pages sq n with
    | none => rw [h₁] at h; cases h
    | some r =>
      obtain ⟨ids, bs₁⟩ := r
      rw [h₁] at h
      replace h : (match BuddySystem.allocate bs₁ ids sq none with
        | none => none
        | some bs₂ => insertAll { s₁ with bs := bs₂ } sq ids 0) = some s' := h
      cases h₂ : BuddySystem.allocate bs₁ ids sq none with
      | none => rw [h₂] at h; cases h
      | some bs₂ =>
        rw [h₂] at h
        replace h : insertAll { s₁ with bs := bs₂ } sq ids 0 = some s' := h
        obtain ⟨f1, f2, f3⟩ := request_frame _ _ _ _ _ h₁
        obtain ⟨g1, g2, g3⟩ := allocate_frame _ _ _ _ _ h₂
        have h02 : Inv0 { s₁ with bs := bs₂ } := by
          constructor
          · intro x hx
            rw [show ({ s₁ with bs := bs₂ } : Sim).bs = bs₂ from rfl, g3] at hx
            rcases f3 x hx with hx | hx
            · exact h01.1 x hx
            · omega
          · show bs₂.pages.length < 2 ^ bs₂.buddy_count
            rw [g1, g3, f1, f2]
            exact h01.2
        exact insertAll_Inv0 _ _ _ _ _ h02 h

theorem xFault_Inv0 (s : Sim) (sq : Int) (n : Nat) (s' : Sim)
    (hsq : 0 ≤ sq) (h0 : Inv0 s) (h : xFault s sq n = some s') : Inv0 s' := by
  simp only [xFault] at h
  cases h₀ : (if ((1 : Int) - (s.bs.count_free_pages : Int)) ≤ 0 then some s
      else s.reclaim_n_pages ((1 : Int) - (s.bs.count_free_pages : Int)).toNat) with
  | none => rw [h₀] at h; cases h
  | some s₁ =>
    rw [h₀] at h
    have h01 : Inv0 s₁ := by
      split at h₀
      · injection h₀ with h₀; subst h₀; exact h0
      · replace h₀ : Sim.reclaimN s
            ((1 : Int) - (s.bs.count_free_pages : Int)).toNat none = some s₁ := h₀
        exact reclaimN_Inv0 _ _ _ _ h0 h₀
    replace h : (match s₁.bs.request_pages sq 1 with
      | none => none
      | some (page_ids, bs₁) =>
        match BuddySystem.allocate bs₁ page_ids sq (some n) with
        | none => none
        | some bs₂ =>
          match page_ids.getLast? with
          | none => none
          | some p =>
            Sim.insert_inactive { s₁ with bs := bs₂ } (Int.ofNat p) sq n) =
        some s' := h
    cases h₁ : s₁.bs.request_pages sq 1 with
    | none => rw [h₁] at h; cases h
    | some r =>
      obtain ⟨ids, bs₁⟩ := r
      rw [h₁] at h
      replace h : (match BuddySystem.allocate bs₁ ids sq (some n) with
        | none => none
        | some bs₂ =>
          match ids.getLast? with
          | none => none
          | some p =>
            Sim.insert_inactive { s₁ with bs := bs₂ } (Int.ofNat p) sq n) =
          some s' := h
      cases h₂ : BuddySystem.allocate bs₁ ids sq (some n) with
      | none => rw [h₂] at h; cases h
      | some bs₂ =>
        rw [h₂] at h
        replace h : (match ids.getLast? with
          | none => none
          | some p =>
            Sim.insert_inactive { s₁ with bs := bs₂ } (Int.ofNat p) sq n) =
            some s' := h
        cases h₃ : ids.getLast? with
        | none => rw [h₃] at h; cases h
        | some p =>
          rw [h₃] at h
          replace h : Sim.insert_inactive { s₁ with bs := bs₂ }
              (Int.ofNat p) sq n = some s' := h
          obtain ⟨f1, f2, f3⟩ := request_frame _ _ _ _ _ h₁
          obtain ⟨g1, g2, g3⟩ := allocate_frame _ _ _ _ _ h₂
          have h02 : Inv0 { s₁ with bs := bs₂ } := by
            constructor
            · intro x hx
              rw [show ({ s₁ with bs := bs₂ } : Sim).bs = bs₂ from rfl, g3] at hx
              rcases f3 x hx with hx | hx
              · exact h01.1 x hx
              · omega
            · show bs₂.pages.length < 2 ^ bs₂.buddy_count
              rw [g1, g3, f1, f2]
              exact h01.2
          exact insert_inactive_Inv0 _ _ _ _ _ h02 h

theorem stepF_Inv0 (s : Sim) (sq : Int) (n : Nat) (s' : Sim)
    (h0 : Inv0 s) (h : stepF s sq n = some s') : Inv0 s' := by
  replace h : some (Sim.delete { s with bs := (s.bs.deallocate sq n).2 }
      (s.bs.deallocate sq n).1) = some s' := h
  injection h with h
  subst h
  obtain ⟨hc, hl, hm⟩ := deallocate_frame s.bs sq n
  constructor
  · intro x hx
    rcases hm x hx with hx | hx
    · exact h0.1 x hx
    · omega
  · show (s.bs.deallocate sq n).2.pages.length <
      2 ^ (s.bs.deallocate sq n).2.buddy_count
    rw [hc, hl]
    exact h0.2

theorem step_Inv0 (s : Sim) (e : Event) (s' : Sim)
    (hsq : 0 ≤ e.seqno) (h0 : Inv0 s) (h : step s e = some s') : Inv0 s' := by
  cases e with
  | A sq n => exact stepA_Inv0 _ _ _ _ hsq h0 h
  | F sq n => exact stepF_Inv0 _ _ _ _ h0 h
  | X sq n =>
    replace h : stepX s sq n = some s' := h
    simp only [stepX] at h
    split at h
    · exact promote_Inv0 _ _ _ h0 h
    · exact xFault_Inv0 _ _ _ _ hsq h0 h

theorem run_Inv0 :
    ∀ (tr : List Event) (s s' : Sim), (∀ ev ∈ tr, 0 ≤ ev.seqno) → Inv0 s →
      run s tr = some s' → Inv0 s' := by
  intro tr
  induction tr with
  | nil =>
    intro s s' hshape h0 h
    replace h : some s = some s' := h
    injection h with h
    subst h
    exact h0
  | cons e es ih =>
    intro s s' hshape h0 h
    replace h : (match step s e with
      | none => none
      | some s₂ => run s₂ es) = some s' := h
    cases hs : step s e with
    | none => rw [hs] at h; cases h
    | some s₂ =>
      rw [hs] at h
      replace h : run s₂ es = some s' := h
      exact ih s₂ s' (fun ev hev => hshape ev (List.mem_cons_of_mem _ hev))
        (step_Inv0 s e s₂ (hshape e (List.mem_cons_self _ _)) h0 hs) h

theorem flog2f_lt : ∀ (f n : Nat), n ≤ f → n < 2 ^ (flog2f f n + 1) := by
  intro f
  induction f with
  | zero =>
    intro n hn
    have : n = 0 := by omega
    subst this
    simp [flog2f]
  | succ f ih =>
    intro n hn
    unfold flog2f
    split
    · next h2 =>
      have h := ih (n / 2) (by omega)
      rw [Nat.pow_succ]
      rw [Nat.pow_succ] at h
      omega
    · next h2 =>
      simp only [Nat.pow_succ, Nat.pow_zero]
      omega

theorem flog2_lt (n : Nat) : n < 2 ^ (flog2 n + 1) :=
  flog2f_lt n n (Nat.le_refl _)

theorem init_Inv0 (M a i : Nat) : Inv0 (Sim.init M a i) := by
  constructor
  · intro x hx
    have := List.eq_of_mem_replicate hx
    omega
  · show (List.replicate M (-1 : Int)).length < 2 ^ (flog2 M + 1)
    rw [List.length_replicate]
    exact flog2_lt M

/-- C1: after any completed event of a trace of well-shaped records
    (non-negative seqnos), the multiset of page indices covered by the buddy
    free lists — order-`i` start `s` covering `[s, s + 2^i)` — has no
    duplicates (no index covered by two registered ranges) and contains
    exactly the indices of page-slot entries equal to -1. -/
theorem C1_partition_invariant (M a i : Nat) (e : Event) (tr : List Event)
    (s' : Sim) (hM : 1 ≤ M)
    (hshape : ∀ ev ∈ e :: tr, 0 ≤ ev.seqno)
    (hrun : run (Sim.init M a i) (e :: tr) = some s') :
    (covOf s'.bs.buddy_lists).Nodup ∧
    ∀ p : Nat, p ∈ covOf s'.bs.buddy_lists ↔
      p < s'.bs.pages.length ∧ s'.bs.pages.getD p 0 = -1 := by
  replace hrun : (match step (Sim.init M a i) e with
    | none => none
    | some s₁ => run s₁ tr) = some s' := hrun
  cases hs : step (Sim.init M a i) e with
  | none => rw [hs] at hrun; cases hrun
  | some s₁ =>
    rw [hs] at hrun
    replace hrun : run s₁ tr = some s' := hrun
    have hA1 : InvA s₁ := step_first_InvA M a i e s₁ hs
    have h01 : Inv0 s₁ := step_Inv0 _ _ _
      (hshape e (List.mem_cons_self _ _)) (init_Inv0 M a i) hs
    have hA : InvA s' := run_preserves_InvA tr s₁ s' hA1 hrun
    have h0 : Inv0 s' := run_Inv0 tr s₁ s'
      (fun ev hev => hshape ev (List.mem_cons_of_mem _ hev)) h01 hrun
    have hAe : s'.bs.buddy_lists =
        BuddySystem.rebuildLists s'.bs.buddy_count s'.bs.pages := hA
    have hperm : List.Perm (covOf s'.bs.buddy_lists)
        (freeIdx s'.bs.pages 0) := by
      rw [hAe]
      exact rebuild_covers _ _ h0.2
    constructor
    · exact hperm.nodup_iff.mpr (freeIdx_nodup _ _)
    · intro p
      rw [hperm.mem_iff, freeIdx_mem]
      constructor
      · rintro ⟨h1, h2, h3⟩
        have hp : p < s'.bs.pages.length := by simpa using h2
        refine ⟨hp, ?_⟩
        have hmem : s'.bs.pages.getD p 0 ∈ s'.bs.pages := by
          rw [List.getD_eq_getElem s'.bs.pages 0 hp]
          exact List.getElem_mem hp
        have hge := h0.1 _ hmem
        have he : s'.bs.pages.getD (p - 0) 0 = s'.bs.pages.getD p 0 := by
          norm_num
        rw [he] at h3
        omega
      · rintro ⟨h1, h2⟩
        refine ⟨Nat.zero_le _, by simpa using h1, ?_⟩
        have he : s'.bs.pages.getD (p - 0) 0 = s'.bs.pages.getD p 0 := by
          norm_num
        rw [he, h2]
        decide

/-- Witness state for C1. -/
def c1wit : Sim :=
  (run (Sim.init 8 2 2) [Event.A 1 1]).getD (Sim.init 8 2 2)

theorem C1_partition_invariant_witness :
    (1 ≤ 8 ∧ (∀ ev ∈ [Event.A 1 1], 0 ≤ ev.seqno) ∧
      run (Sim.init 8 2 2) [Event.A 1 1] = some c1wit) ∧
    ((covOf c1wit.bs.buddy_lists).Nodup ∧
      ∀ p : Nat, p ∈ covOf c1wit.bs.buddy_lists ↔
        p < c1wit.bs.pages.length ∧ c1wit.bs.pages.getD p 0 = -1) :=
  ⟨⟨by decide, by decide, rfl⟩,
    C1_partition_invariant 8 2 2 (Event.A 1 1) [] c1wit (by decide)
      (by decide) rfl⟩

/- ----------------------------------------------------------------------- -/
/- C4: the placement rule of the free-list rebuild.                         -/
/- ----------------------------------------------------------------------- -/

/-- The run-extraction skeleton of the rebuild scan: the same `p1`/`p2`/
    `started` bookkeeping as `updateBuddyLoop`, recording the
    `(start, length)` pair of every run it hands to `partition_and_return`
    (including the zero-length runs the never-reset `started` flag emits). -/

def runsLoop : List Int → Nat → Nat → Bool → List (Nat × Nat)
  | [], p1, p2, started => if started then [(p1, p2 - p1)] else []
  | x :: xs, p1, p2, started =>
    if x < 0 then runsLoop xs p1 (p2 + 1) true
    else if started then (p1, p2 - p1) :: runsLoop xs (p2 + 1) (p2 + 1) true
    else runsLoop xs (p1 + 1) (p2 + 1) started

/-- Modelled from the spec's words: scan left to right for the maximal runs
    of contiguous free (`-1`) slots, returning each run as `(start, length)`.
    `i` is the absolute index of the head of the remaining list; the fuel
    makes the recursion (on `dropWhile`) structural. -/
def specRunsF : Nat → List Int → Nat → List (Nat × Nat)
  | 0, _, _ => []
  | _ + 1, [], _ => []
  | f + 1, x :: xs, i =>
    if x = -1 then
      (i, (xs.takeWhile (fun y => decide (y = -1))).length + 1) ::
        specRunsF f (xs.dropWhile (fun y => decide (y = -1)))
          (i + (xs.takeWhile (fun y => decide (y = -1))).length + 1)
    else specRunsF f xs (i + 1)

/-- The maximal free runs of a page array, per the spec. -/
def specRuns (pages : List Int) : List (Nat × Nat) :=
  specRunsF pages.length pages 0

/-- Modelled from the spec's words: the set-bit positions of `L`'s binary
    representation, least significant first, offset by `j`. -/
def bitsAux : Nat → Nat → Nat → List Nat
  | 0, _, _ => []
  | f + 1, L, j =>
    if L = 0 then []
    else if L % 2 = 1 then j :: bitsAux f (L / 2) (j + 1)
    else bitsAux f (L / 2) (j + 1)

/-- The set bits of `L`'s binary representation, in increasing order of
    significance. -/
def bitsOf (L : Nat) : List Nat := bitsAux L L 0

/-- Modelled from the spec's words: one `(start, order)` chunk per set bit,
    each chunk starting at the address immediately after the previous one. -/
def chunksAux (S : Nat) : List Nat → List (Nat × Nat)
  | [] => []
  | j :: js => (S, j) :: chunksAux (S + 2 ^ j) js

/-- The chunks a run of length `L` starting at `S` decomposes into, per the
    spec: one per set bit of `L`, in increasing order of bit significance,
    the smallest chunk at the lowest addresses. -/
def specChunks (S L : Nat) : List (Nat × Nat) := chunksAux S (bitsOf L)

/-- Register one chunk: append its start id to the free list of its order. -/
def specInsert (bl : List (List Nat)) (ch : Nat × Nat) : List (List Nat) :=
  bl.set ch.2 (bl.getD ch.2 [] ++ [ch.1])

/-- Modelled from the spec's words: rebuild the free lists by walking the
    maximal free runs left to right and registering each run's chunks. -/
def specRebuild (c : Nat) (pages : List Int) : List (List Nat) :=
  (specRuns pages).foldl
    (fun bl r => (specChunks r.1 r.2).foldl specInsert bl)
    (List.replicate c ([] : List Nat))

/-- Page indices covered by a list of `(start, length)` runs. -/
def covRuns (runs : List (Nat × Nat)) : List Nat :=
  runs.flatMap (fun r => List.range' r.1 r.2)

/-- Page indices covered by a list of `(start, order)` chunks. -/
def covChunks (chs : List (Nat × Nat)) : List Nat :=
  chs.flatMap (fun ch => List.range' ch.1 (2 ^ ch.2))

-- ==================== part 1: BuddySystem.partAux = chunk foldl ====================

theorem partAux_foldl_chunks :
    ∀ (f : Nat) (bl : List (List Nat)) (S L j : Nat),
      BuddySystem.partAux f bl S L j = (chunksAux S (bitsAux f L j)).foldl specInsert bl := by
  intro f
  induction f with
  | zero => intro bl S L j; rfl
  | succ f ih =>
    intro bl S L j
    unfold BuddySystem.partAux bitsAux
    by_cases h0 : L = 0
    · rw [if_pos h0, if_pos h0]; rfl
    · rw [if_neg h0, if_neg h0]
      by_cases h1 : L % 2 = 1
      · rw [if_pos h1, if_pos h1, ih]; rfl
      · rw [if_neg h1, if_neg h1, ih]

theorem updateLoop_foldl_runs :
    ∀ (pages : List Int) (bl : List (List Nat)) (p1 p2 : Nat) (st : Bool),
      BuddySystem.updateBuddyLoop bl pages p1 p2 st =
        (runsLoop pages p1 p2 st).foldl
          (fun b r => BuddySystem.partition_and_return b r.1 r.2) bl := by
  intro pages
  induction pages with
  | nil =>
    intro bl p1 p2 st
    show (if st then BuddySystem.partition_and_return bl p1 (p2 - p1) else bl) = _
    by_cases h : st
    · rw [if_pos h]
      show _ = ((if st then [(p1, p2 - p1)] else []).foldl _ bl)
      rw [if_pos h]; rfl
    · rw [if_neg h]
      show _ = ((if st then [(p1, p2 - p1)] else []).foldl _ bl)
      rw [if_neg h]; rfl
  | cons x xs ih =>
    intro bl p1 p2 st
    show (if x < 0 then BuddySystem.updateBuddyLoop bl xs p1 (p2 + 1) true
      else if st then
        BuddySystem.updateBuddyLoop (BuddySystem.partition_and_return bl p1 (p2 - p1)) xs (p2 + 1)
          (p2 + 1) true
      else BuddySystem.updateBuddyLoop bl xs (p1 + 1) (p2 + 1) st) = _
    show _ = ((if x < 0 then runsLoop xs p1 (p2 + 1) true
      else if st then (p1, p2 - p1) :: runsLoop xs (p2 + 1) (p2 + 1) true
      else runsLoop xs (p1 + 1) (p2 + 1) st).foldl
        (fun b r => BuddySystem.partition_and_return b r.1 r.2) bl)
    by_cases hx : x < 0
    · rw [if_pos hx, if_pos hx, ih]
    · rw [if_neg hx, if_neg hx]
      by_cases hst : st
      · rw [if_pos hst, if_pos hst, ih]; rfl
      · rw [if_neg hst, if_neg hst, ih]

theorem foldl_part_filter :
    ∀ (runs : List (Nat × Nat)) (bl : List (List Nat)),
      runs.foldl (fun b r => BuddySystem.partition_and_return b r.1 r.2) bl =
        (runs.filter (fun r => decide (r.2 ≠ 0))).foldl
          (fun b r => BuddySystem.partition_and_return b r.1 r.2) bl := by
  intro runs
  induction runs with
  | nil => intro bl; rfl
  | cons r rs ih =>
    intro bl
    rw [List.foldl_cons, List.filter_cons]
    split
    · rw [List.foldl_cons, ih]
    · next hcond =>
      have h0 : r.2 = 0 := by simpa using hcond
      have : BuddySystem.partition_and_return bl r.1 r.2 = bl := by
        rw [h0]; rfl
      rw [this, ih]

theorem dropWhile_length_le (p : Int → Bool) (l : List Int) :
    (l.dropWhile p).length ≤ l.length := by
  induction l with
  | nil => simp
  | cons x xs ih =>
    rw [List.dropWhile_cons]
    split
    · exact ih.trans (by simp)
    · simp

theorem specRunsF_nil : ∀ (f i : Nat), specRunsF f [] i = [] := by
  intro f i
  cases f <;> rfl

theorem specRunsF_fuel :
    ∀ (f g : Nat) (xs : List Int) (i : Nat), xs.length ≤ f → xs.length ≤ g →
      specRunsF f xs i = specRunsF g xs i := by
  intro f
  induction f with
  | zero =>
    intro g xs i hf hg
    have : xs = [] := List.length_eq_zero.mp (Nat.le_zero.mp hf)
    subst this
    rw [specRunsF_nil, specRunsF_nil]
  | succ f ih =>
    intro g xs i hf hg
    cases xs with
    | nil => rw [specRunsF_nil, specRunsF_nil]
    | cons x xs =>
      cases g with
      | zero => simp at hg
      | succ g =>
        show (if x = -1 then
            (i, (xs.takeWhile (fun y => decide (y = -1))).length + 1) ::
              specRunsF f (xs.dropWhile (fun y => decide (y = -1)))
                (i + (xs.takeWhile (fun y => decide (y = -1))).length + 1)
          else specRunsF f xs (i + 1)) =
          (if x = -1 then
            (i, (xs.takeWhile (fun y => decide (y = -1))).length + 1) ::
              specRunsF g (xs.dropWhile (fun y => decide (y = -1)))
                (i + (xs.takeWhile (fun y => decide (y = -1))).length + 1)
          else specRunsF g xs (i + 1))
        have hf' : xs.length ≤ f := by simpa using hf
        have hg' : xs.length ≤ g := by simpa using hg
        by_cases hx : x = -1
        · rw [if_pos hx, if_pos hx,
            ih g (xs.dropWhile (fun y => decide (y = -1))) _
              ((dropWhile_length_le _ _).trans hf')
              ((dropWhile_length_le _ _).trans hg')]
        · rw [if_neg hx, if_neg hx, ih g xs _ hf' hg']

theorem runsLoop_cons (x : Int) (xs : List Int) (p1 p2 : Nat) (st : Bool) :
    runsLoop (x :: xs) p1 p2 st =
      if x < 0 then runsLoop xs p1 (p2 + 1) true
      else if st then (p1, p2 - p1) :: runsLoop xs (p2 + 1) (p2 + 1) true
      else runsLoop xs (p1 + 1) (p2 + 1) st := rfl

theorem specRunsF_cons (f : Nat) (x : Int) (xs : List Int) (i : Nat) :
    specRunsF (f + 1) (x :: xs) i =
      if x = -1 then
        (i, (xs.takeWhile (fun y => decide (y = -1))).length + 1) ::
          specRunsF f (xs.dropWhile (fun y => decide (y = -1)))
            (i + (xs.takeWhile (fun y => decide (y = -1))).length + 1)
      else specRunsF f xs (i + 1) := rfl

theorem runsLoop_spec_nil (f p1 p2 : Nat) (st : Bool)
    (hle : p1 ≤ p2) (hst : st = false → p1 = p2) :
    (runsLoop [] p1 p2 st).filter (fun r => decide (r.2 ≠ 0)) =
      if p1 < p2 then
        (p1, (p2 - p1) +
            (([] : List Int).takeWhile (fun y => decide (y = -1))).length) ::
          specRunsF f (([] : List Int).dropWhile (fun y => decide (y = -1)))
            (p2 + (([] : List Int).takeWhile (fun y => decide (y = -1))).length)
      else specRunsF f [] p2 := by
  simp only [List.takeWhile_nil, List.dropWhile_nil, List.length_nil,
    Nat.add_zero, specRunsF_nil]
  by_cases hlt : p1 < p2
  · have hsttrue : st = true := by
      cases st
      · exact absurd (hst rfl) (by omega)
      · rfl
    subst hsttrue
    rw [if_pos hlt]
    show ([(p1, p2 - p1)]).filter (fun r => decide (r.2 ≠ 0)) = _
    rw [List.filter_cons, if_pos (by simp; omega)]
    rfl
  · rw [if_neg hlt]
    have hpe : p1 = p2 := by omega
    cases st
    · rfl
    · show ([(p1, p2 - p1)]).filter (fun r => decide (r.2 ≠ 0)) = []
      rw [List.filter_cons, if_neg (by simp; omega)]
      rfl

theorem runsLoop_spec :
    ∀ (f : Nat) (xs : List Int) (p1 p2 : Nat) (st : Bool),
      xs.length ≤ f → p1 ≤ p2 → (st = false → p1 = p2) →
      (∀ x ∈ xs, -1 ≤ x) →
      (runsLoop xs p1 p2 st).filter (fun r => decide (r.2 ≠ 0)) =
        if p1 < p2 then
          (p1, (p2 - p1) + (xs.takeWhile (fun y => decide (y = -1))).length) ::
            specRunsF f (xs.dropWhile (fun y => decide (y = -1)))
              (p2 + (xs.takeWhile (fun y => decide (y = -1))).length)
        else specRunsF f xs p2 := by
  intro f
  induction f with
  | zero =>
    intro xs p1 p2 st hf hle hst hge
    have hnil : xs = [] := List.length_eq_zero.mp (Nat.le_zero.mp hf)
    subst hnil
    exact runsLoop_spec_nil 0 p1 p2 st hle hst
  | succ f ih =>
    intro xs p1 p2 st hf hle hst hge
    cases xs with
    | nil => exact runsLoop_spec_nil (f + 1) p1 p2 st hle hst
    | cons x xs =>
      have hf' : xs.length ≤ f := by simpa using hf
      have hgex : -1 ≤ x := hge x (List.mem_cons_self _ _)
      have hge' : ∀ y ∈ xs, -1 ≤ y := fun y hy => hge y (List.mem_cons_of_mem _ hy)
      rw [runsLoop_cons, specRunsF_cons]
      by_cases hx : x < 0
      · -- the head is a free slot, so it is -1
        have hxe : x = -1 := by omega
        have hdec : decide (x = -1) = true := decide_eq_true hxe
        rw [if_pos hx, if_pos hxe]
        rw [List.takeWhile_cons, List.dropWhile_cons]
        simp only [hdec, if_true, List.length_cons]
        have hrec := ih xs p1 (p2 + 1) true hf' (by omega) (by simp) hge'
        rw [if_pos (by omega : p1 < p2 + 1)] at hrec
        rw [hrec]
        have hfe := specRunsF_fuel f (f + 1)
          (xs.dropWhile (fun y => decide (y = -1))) (p2 + 1 +
            (xs.takeWhile (fun y => decide (y = -1))).length)
          ((dropWhile_length_le _ _).trans hf')
          ((dropWhile_length_le _ _).trans (hf'.trans (Nat.le_succ f)))
        by_cases hlt : p1 < p2
        · rw [if_pos hlt]
          have h1 : (p2 + 1 - p1) + (xs.takeWhile (fun y => decide (y = -1))).length =
              (p2 - p1) + ((xs.takeWhile (fun y => decide (y = -1))).length + 1) := by
            omega
          have h2 : p2 + 1 + (xs.takeWhile (fun y => decide (y = -1))).length =
              p2 + ((xs.takeWhile (fun y => decide (y = -1))).length + 1) := by
            omega
          rw [hfe, h1, h2]
        · rw [if_neg hlt]
          have hpe : p1 = p2 := by omega
          subst hpe
          have h1 : (p1 + 1 - p1) + (xs.takeWhile (fun y => decide (y = -1))).length =
              (xs.takeWhile (fun y => decide (y = -1))).length + 1 := by
            omega
          have h2 : p1 + 1 + (xs.takeWhile (fun y => decide (y = -1))).length =
              p1 + (xs.takeWhile (fun y => decide (y = -1))).length + 1 := by
            omega
          rw [h1, h2]
      · -- the head is occupied
        have hne : ¬(x = -1) := by omega
        have hdec : decide (x = -1) = false := decide_eq_false hne
        rw [if_neg hx, if_neg hne]
        rw [List.takeWhile_cons, List.dropWhile_cons]
        simp only [hdec, Bool.false_eq_true, if_false, List.length_nil,
          Nat.add_zero]
        cases st with
        | false =>
          have hpe : p1 = p2 := hst rfl
          subst hpe
          rw [if_neg (by omega : ¬(p1 < p1))]
          have hrec := ih xs (p1 + 1) (p1 + 1) false hf' (Nat.le_refl _)
            (fun _ => rfl) hge'
          rw [if_neg (by omega : ¬(p1 + 1 < p1 + 1))] at hrec
          exact hrec
        | true =>
          show ((p1, p2 - p1) :: runsLoop xs (p2 + 1) (p2 + 1) true).filter
            (fun r => decide (r.2 ≠ 0)) = _
          have hrec := ih xs (p2 + 1) (p2 + 1) true hf' (Nat.le_refl _)
            (by simp) hge'
          rw [if_neg (by omega : ¬(p2 + 1 < p2 + 1))] at hrec
          rw [List.filter_cons]
          by_cases hlt : p1 < p2
          · rw [if_pos (by simp; omega), hrec, if_pos hlt]
            rw [Nat.add_zero, specRunsF_cons, if_neg hne]
          · rw [if_neg (by simp; omega), hrec, if_neg hlt]

theorem freeIdx_append :
    ∀ (l₁ l₂ : List Int) (i : Nat),
      freeIdx (l₁ ++ l₂) i = freeIdx l₁ i ++ freeIdx l₂ (i + l₁.length) := by
  intro l₁
  induction l₁ with
  | nil => intro l₂ i; simp [freeIdx]
  | cons x xs ih =>
    intro l₂ i
    show (if x < 0 then i :: freeIdx (xs ++ l₂) (i + 1)
      else freeIdx (xs ++ l₂) (i + 1)) = _
    show _ = (if x < 0 then i :: freeIdx xs (i + 1) else freeIdx xs (i + 1)) ++
      freeIdx l₂ (i + (x :: xs).length)
    have harr : i + (x :: xs).length = (i + 1) + xs.length := by
      simp [List.length_cons]; omega
    by_cases hx : x < 0
    · rw [if_pos hx, if_pos hx, ih, harr]
      rfl
    · rw [if_neg hx, if_neg hx, ih, harr]

theorem freeIdx_all_free :
    ∀ (l : List Int) (i : Nat), (∀ x ∈ l, x < 0) →
      freeIdx l i = List.range' i l.length := by
  intro l
  induction l with
  | nil => intro i _; rfl
  | cons x xs ih =>
    intro i h
    show (if x < 0 then i :: freeIdx xs (i + 1) else freeIdx xs (i + 1)) = _
    rw [if_pos (h x (List.mem_cons_self _ _)),
      ih (i + 1) (fun y hy => h y (List.mem_cons_of_mem _ hy)),
      List.length_cons, List.range'_succ]

theorem specRunsF_cover :
    ∀ (f : Nat) (xs : List Int) (i : Nat), xs.length ≤ f →
      (∀ x ∈ xs, -1 ≤ x) →
      covRuns (specRunsF f xs i) = freeIdx xs i := by
  intro f
  induction f with
  | zero =>
    intro xs i hf hge
    have hnil : xs = [] := List.length_eq_zero.mp (Nat.le_zero.mp hf)
    subst hnil
    rfl
  | succ f ih =>
    intro xs i hf hge
    cases xs with
    | nil => rfl
    | cons x xs =>
      have hf' : xs.length ≤ f := by simpa using hf
      have hgex : -1 ≤ x := hge x (List.mem_cons_self _ _)
      have hge' : ∀ y ∈ xs, -1 ≤ y := fun y hy => hge y (List.mem_cons_of_mem _ hy)
      have hged : ∀ y ∈ xs.dropWhile (fun y => decide (y = -1)), -1 ≤ y := by
        intro y hy
        exact hge' y (List.dropWhile_sublist _ |>.subset hy)
      rw [specRunsF_cons]
      by_cases hx : x = -1
      · rw [if_pos hx]
        show List.range' i ((xs.takeWhile (fun y => decide (y = -1))).length + 1) ++
          covRuns (specRunsF f (xs.dropWhile (fun y => decide (y = -1)))
            (i + (xs.takeWhile (fun y => decide (y = -1))).length + 1)) = _
        rw [ih _ _ ((dropWhile_length_le _ _).trans hf') hged]
        show _ = freeIdx (x :: xs) i
        have hxfree : x < 0 := by omega
        show _ = (if x < 0 then i :: freeIdx xs (i + 1) else freeIdx xs (i + 1))
        rw [if_pos hxfree]
        conv_rhs => rw [← List.takeWhile_append_dropWhile
          (fun y => decide (y = -1)) xs]
        rw [freeIdx_append]
        have htfree : ∀ y ∈ xs.takeWhile (fun y => decide (y = -1)), y < 0 := by
          intro y hy
          have := List.mem_takeWhile_imp hy
          have : y = -1 := of_decide_eq_true this
          omega
        rw [freeIdx_all_free _ _ htfree]
        rw [List.range'_succ]
        have harr : i + 1 + (xs.takeWhile (fun y => decide (y = -1))).length =
            i + (xs.takeWhile (fun y => decide (y = -1))).length + 1 := by
          omega
        rw [harr]
        rfl
      · rw [if_neg hx]
        have hxocc : ¬(x < 0) := by omega
        rw [ih _ _ hf' hge']
        show _ = (if x < 0 then i :: freeIdx xs (i + 1) else freeIdx xs (i + 1))
        rw [if_neg hxocc]

theorem specRunsF_zero (xs : List Int) (i : Nat) : specRunsF 0 xs i = [] := rfl

theorem specRunsF_lb :
    ∀ (f : Nat) (xs : List Int) (i : Nat) (r : Nat × Nat),
      r ∈ specRunsF f xs i → i ≤ r.1 := by
  intro f
  induction f with
  | zero => intro xs i r h; rw [specRunsF_zero] at h; cases h
  | succ f ih =>
    intro xs i r h
    cases xs with
    | nil => rw [specRunsF_nil] at h; cases h
    | cons x xs =>
      rw [specRunsF_cons] at h
      split at h
      · rcases List.mem_cons.mp h with rfl | h
        · exact Nat.le_refl _
        · have := ih _ _ _ h
          omega
      · have := ih _ _ _ h
        omega

theorem specRunsF_pos :
    ∀ (f : Nat) (xs : List Int) (i : Nat) (r : Nat × Nat),
      r ∈ specRunsF f xs i → 0 < r.2 := by
  intro f
  induction f with
  | zero => intro xs i r h; rw [specRunsF_zero] at h; cases h
  | succ f ih =>
    intro xs i r h
    cases xs with
    | nil => rw [specRunsF_nil] at h; cases h
    | cons x xs =>
      rw [specRunsF_cons] at h
      split at h
      · rcases List.mem_cons.mp h with rfl | h
        · exact Nat.succ_pos _
        · exact ih _ _ _ h
      · exact ih _ _ _ h

theorem dropWhile_head_not (p : Int → Bool) :
    ∀ (l : List Int) (y : Int) (ys : List Int),
      l.dropWhile p = y :: ys → p y = false := by
  intro l
  induction l with
  | nil => intro y ys h; cases h
  | cons x xs ih =>
    intro y ys h
    rw [List.dropWhile_cons] at h
    split at h
    · exact ih y ys h
    · next hnp =>
      cases h
      exact Bool.not_eq_true _ |>.mp hnp

theorem specRunsF_chain :
    ∀ (f : Nat) (xs : List Int) (i : Nat), xs.length ≤ f →
      List.Chain' (fun r r' : Nat × Nat => r.1 + r.2 < r'.1)
        (specRunsF f xs i) := by
  intro f
  induction f with
  | zero =>
    intro xs i hf
    rw [specRunsF_zero]
    exact List.chain'_nil
  | succ f ih =>
    intro xs i hf
    cases xs with
    | nil => rw [specRunsF_nil]; exact List.chain'_nil
    | cons x xs =>
      have hf' : xs.length ≤ f := by simpa using hf
      rw [specRunsF_cons]
      by_cases hx : x = -1
      · rw [if_pos hx]
        refine List.chain'_cons'.mpr ⟨?_, ih _ _ ((dropWhile_length_le _ _).trans hf')⟩
        intro r hr
        have hrmem : r ∈ specRunsF f (xs.dropWhile (fun y => decide (y = -1)))
            (i + (xs.takeWhile (fun y => decide (y = -1))).length + 1) :=
          List.mem_of_mem_head? hr
        -- the element after the run, if any, is not free
        cases hdw : xs.dropWhile (fun y => decide (y = -1)) with
        | nil =>
          rw [hdw, specRunsF_nil] at hrmem
          cases hrmem
        | cons y ys =>
          rw [hdw] at hrmem
          have hy : decide (y = -1) = false := dropWhile_head_not _ _ _ _ hdw
          have hyne : ¬(y = -1) := of_decide_eq_false hy
          cases f with
          | zero => rw [specRunsF_zero] at hrmem; cases hrmem
          | succ f' =>
            rw [specRunsF_cons, if_neg hyne] at hrmem
            have := specRunsF_lb _ _ _ _ hrmem
            simp only []
            omega
      · rw [if_neg hx]
        exact ih _ _ hf'

theorem bitsAux_zero (L j : Nat) : bitsAux 0 L j = [] := rfl

theorem bitsAux_succ (f L j : Nat) :
    bitsAux (f + 1) L j =
      if L = 0 then []
      else if L % 2 = 1 then j :: bitsAux f (L / 2) (j + 1)
      else bitsAux f (L / 2) (j + 1) := rfl

theorem bitsAux_testBit :
    ∀ (f L j k : Nat), L < 2 ^ f →
      (k ∈ bitsAux f L j ↔ j ≤ k ∧ L.testBit (k - j) = true) := by
  intro f
  induction f with
  | zero =>
    intro L j k hL
    have h0 : L = 0 := by simpa using hL
    subst h0
    rw [bitsAux_zero]
    simp [Nat.zero_testBit]
  | succ f ih =>
    intro L j k hL
    rw [bitsAux_succ]
    by_cases h0 : L = 0
    · subst h0
      rw [if_pos rfl]
      simp [Nat.zero_testBit]
    · rw [if_neg h0]
      have hL2 : L / 2 < 2 ^ f := by
        rw [pow_succ] at hL
        omega
      by_cases h1 : L % 2 = 1
      · rw [if_pos h1]
        constructor
        · intro h
          rcases List.mem_cons.mp h with rfl | h
          · refine ⟨Nat.le_refl _, ?_⟩
            rw [Nat.sub_self, Nat.testBit_zero]
            simpa using h1
          · obtain ⟨hjk, htb⟩ := (ih (L / 2) (j + 1) k hL2).mp h
            refine ⟨by omega, ?_⟩
            have he : k - j = (k - (j + 1)) + 1 := by omega
            rw [he, Nat.testBit_succ]
            exact htb
        · rintro ⟨hjk, htb⟩
          by_cases hkj : k = j
          · subst hkj
            exact List.mem_cons_self _ _
          · refine List.mem_cons.mpr (Or.inr ((ih (L / 2) (j + 1) k hL2).mpr
              ⟨by omega, ?_⟩))
            have he : k - j = (k - (j + 1)) + 1 := by omega
            rw [he, Nat.testBit_succ] at htb
            exact htb
      · rw [if_neg h1]
        rw [ih (L / 2) (j + 1) k hL2]
        constructor
        · rintro ⟨hjk, htb⟩
          refine ⟨by omega, ?_⟩
          have he : k - j = (k - (j + 1)) + 1 := by omega
          rw [he, Nat.testBit_succ]
          exact htb
        · rintro ⟨hjk, htb⟩
          by_cases hkj : k = j
          · subst hkj
            rw [Nat.sub_self, Nat.testBit_zero] at htb
            have : L % 2 = 1 := by simpa using htb
            exact absurd this h1
          · refine ⟨by omega, ?_⟩
            have he : k - j = (k - (j + 1)) + 1 := by omega
            rw [he, Nat.testBit_succ] at htb
            exact htb

theorem bitsOf_testBit (L k : Nat) : k ∈ bitsOf L ↔ L.testBit k = true := by
  rw [bitsOf, bitsAux_testBit L L 0 k (Nat.lt_two_pow L)]
  simp

theorem bitsAux_lb :
    ∀ (f L j k : Nat), k ∈ bitsAux f L j → j ≤ k := by
  intro f
  induction f with
  | zero => intro L j k h; rw [bitsAux_zero] at h; cases h
  | succ f ih =>
    intro L j k h
    rw [bitsAux_succ] at h
    split at h
    · cases h
    · split at h
      · rcases List.mem_cons.mp h with rfl | h
        · exact Nat.le_refl _
        · have := ih _ _ _ h
          omega
      · have := ih _ _ _ h
        omega

theorem bitsAux_chain :
    ∀ (f L j : Nat), List.Chain' (· < ·) (bitsAux f L j) := by
  intro f
  induction f with
  | zero => intro L j; rw [bitsAux_zero]; exact List.chain'_nil
  | succ f ih =>
    intro L j
    rw [bitsAux_succ]
    split
    · exact List.chain'_nil
    · split
      · refine List.chain'_cons'.mpr ⟨?_, ih _ _⟩
        intro k hk
        have := bitsAux_lb f (L / 2) (j + 1) k (List.mem_of_mem_head? hk)
        omega
      · exact ih _ _

theorem bitsOf_chain (L : Nat) : List.Chain' (· < ·) (bitsOf L) :=
  bitsAux_chain L L 0

theorem chunksAux_map :
    ∀ (js : List Nat) (S : Nat),
      (chunksAux S js).map (fun ch => ch.2) = js := by
  intro js
  induction js with
  | nil => intro S; rfl
  | cons j js ih =>
    intro S
    show (S, j).2 :: (chunksAux (S + 2 ^ j) js).map (fun ch => ch.2) = j :: js
    rw [ih]

theorem chunksAux_cov :
    ∀ (f L S j : Nat), L < 2 ^ f →
      covChunks (chunksAux S (bitsAux f L j)) = List.range' S (L * 2 ^ j) := by
  intro f
  induction f with
  | zero =>
    intro L S j hL
    have h0 : L = 0 := by simpa using hL
    subst h0
    rw [Nat.zero_mul]
    rfl
  | succ f ih =>
    intro L S j hL
    rw [bitsAux_succ]
    by_cases h0 : L = 0
    · subst h0
      rw [if_pos rfl, Nat.zero_mul]
      rfl
    · rw [if_neg h0]
      have hL2 : L / 2 < 2 ^ f := by
        rw [pow_succ] at hL
        omega
      by_cases h1 : L % 2 = 1
      · rw [if_pos h1]
        show List.range' S (2 ^ j) ++
          covChunks (chunksAux (S + 2 ^ j) (bitsAux f (L / 2) (j + 1))) = _
        rw [ih (L / 2) (S + 2 ^ j) (j + 1) hL2]
        obtain ⟨m, rfl⟩ : ∃ m, L = 2 * m + 1 := ⟨L / 2, by omega⟩
        have hm : (2 * m + 1) / 2 = m := by omega
        rw [hm]
        have harr : S + 2 ^ j = S + 1 * 2 ^ j := by omega
        rw [harr, List.range'_append]
        have harr2 : m * 2 ^ (j + 1) + 2 ^ j = (2 * m + 1) * 2 ^ j := by
          rw [pow_succ]
          ring
        rw [harr2]
      · rw [if_neg h1]
        show covChunks (chunksAux S (bitsAux f (L / 2) (j + 1))) = _
        rw [ih (L / 2) S (j + 1) hL2]
        obtain ⟨m, rfl⟩ : ∃ m, L = 2 * m := ⟨L / 2, by omega⟩
        have hm : (2 * m) / 2 = m := by omega
        rw [hm]
        have harr : m * 2 ^ (j + 1) = (2 * m) * 2 ^ j := by
          rw [pow_succ]
          ring
        rw [harr]

theorem specChunks_cov (S L : Nat) :
    covChunks (specChunks S L) = List.range' S L := by
  rw [specChunks, bitsOf, chunksAux_cov L L S 0 (Nat.lt_two_pow L)]
  simp

theorem foldl_part_chunks :
    ∀ (runs : List (Nat × Nat)) (bl : List (List Nat)),
      runs.foldl (fun b r => BuddySystem.partition_and_return b r.1 r.2) bl =
        runs.foldl (fun b r => (specChunks r.1 r.2).foldl specInsert b) bl := by
  intro runs
  induction runs with
  | nil => intro bl; rfl
  | cons r rs ih =>
    intro bl
    rw [List.foldl_cons, List.foldl_cons]
    have hpart : BuddySystem.partition_and_return bl r.1 r.2 =
        (specChunks r.1 r.2).foldl specInsert bl := by
      show BuddySystem.partAux r.2 bl r.1 r.2 0 = _
      rw [partAux_foldl_chunks]
      rfl
    rw [hpart, ih]

theorem freeIdx_lt :
    ∀ (xs : List Int) (i p : Nat), p ∈ freeIdx xs i → p < i + xs.length := by
  intro xs
  induction xs with
  | nil => intro i p h; cases h
  | cons x xs ih =>
    intro i p h
    show p < i + (xs.length + 1)
    by_cases hx : x < 0
    · rw [show freeIdx (x :: xs) i =
        i :: freeIdx xs (i + 1) from if_pos hx] at h
      rcases List.mem_cons.mp h with rfl | h
      · omega
      · have := ih (i + 1) p h
        omega
    · rw [show freeIdx (x :: xs) i =
        freeIdx xs (i + 1) from if_neg hx] at h
      have := ih (i + 1) p h
      omega

theorem specRuns_length_le (pages : List Int) (r : Nat × Nat)
    (hge : ∀ x ∈ pages, -1 ≤ x)
    (hr : r ∈ specRuns pages) : r.2 ≤ pages.length := by
  have hpos : 0 < r.2 := specRunsF_pos _ _ _ _ hr
  have hmem : r.1 + r.2 - 1 ∈ covRuns (specRuns pages) :=
    List.mem_flatMap.mpr ⟨r, hr, List.mem_range'_1.mpr (by omega)⟩
  rw [specRuns, specRunsF_cover pages.length pages 0 (Nat.le_refl _) hge]
    at hmem
  have := freeIdx_lt pages 0 (r.1 + r.2 - 1) hmem
  omega

theorem specChunks_order_lt (c : Nat) (pages : List Int)
    (hge : ∀ x ∈ pages, -1 ≤ x) (hlen : pages.length < 2 ^ c)
    (r : Nat × Nat) (hr : r ∈ specRuns pages)
    (ch : Nat × Nat) (hch : ch ∈ specChunks r.1 r.2) : ch.2 < c := by
  have hmap : ch.2 ∈ (specChunks r.1 r.2).map (fun ch => ch.2) :=
    List.mem_map_of_mem _ hch
  rw [specChunks, chunksAux_map] at hmap
  have htb : r.2.testBit ch.2 = true := (bitsOf_testBit _ _).mp hmap
  have h2 : 2 ^ ch.2 ≤ r.2 := Nat.testBit_implies_ge htb
  have h3 : r.2 ≤ pages.length := specRuns_length_le pages r hge hr
  have h4 : 2 ^ ch.2 < 2 ^ c := by omega
  exact (Nat.pow_lt_pow_iff_right (by omega)).mp h4

/-- C4: the free-list rebuild scans the page array left to right for the
    maximal runs of contiguous free slots and, for each run of length `L`
    at start `S`, registers one free block per set bit of `L`'s binary
    representation, in increasing order of bit significance from the
    least-significant set bit, each chunk starting immediately after the
    previous one, the chunks together covering exactly `[S, S + L)`: the
    rebuild equals the spec-side `specRebuild`, the runs cover exactly the
    free slots and are separated by occupied slots, and each run's chunk
    list has the stated shape with every chunk registered at a valid
    order. -/
theorem C4_rebuild_placement (c : Nat) (pages : List Int)
    (hge : ∀ x ∈ pages, -1 ≤ x) (hlen : pages.length < 2 ^ c) :
    BuddySystem.rebuildLists c pages = specRebuild c pages ∧
    covRuns (specRuns pages) = freeIdx pages 0 ∧
    List.Chain' (fun r r' : Nat × Nat => r.1 + r.2 < r'.1) (specRuns pages) ∧
    ∀ r ∈ specRuns pages,
      0 < r.2 ∧
      (∀ j, j ∈ bitsOf r.2 ↔ r.2.testBit j = true) ∧
      List.Chain' (· < ·) (bitsOf r.2) ∧
      (specChunks r.1 r.2).map (fun ch => ch.2) = bitsOf r.2 ∧
      covChunks (specChunks r.1 r.2) = List.range' r.1 r.2 ∧
      ∀ ch ∈ specChunks r.1 r.2, ch.2 < c := by
  refine ⟨?_, ?_, ?_, ?_⟩
  · show BuddySystem.updateBuddyLoop (List.replicate c ([] : List Nat)) pages 0 0 false = _
    rw [updateLoop_foldl_runs, foldl_part_filter]
    have hspec := runsLoop_spec pages.length pages 0 0 false (Nat.le_refl _)
      (Nat.le_refl _) (fun _ => rfl) hge
    rw [if_neg (lt_irrefl 0)] at hspec
    rw [hspec, foldl_part_chunks]
    rfl
  · rw [specRuns, specRunsF_cover pages.length pages 0 (Nat.le_refl _) hge]
  · exact specRunsF_chain pages.length pages 0 (Nat.le_refl _)
  · intro r hr
    refine ⟨specRunsF_pos _ _ _ _ hr, fun j => bitsOf_testBit _ _,
      bitsOf_chain _, ?_, specChunks_cov _ _,
      fun ch hch => specChunks_order_lt c pages hge hlen r hr ch hch⟩
    rw [specChunks, chunksAux_map]

/-- Witness page array for C4. -/
def c4pages : List Int := [-1, 5, -1, -1, 7, -1, -1, -1]

theorem C4_rebuild_placement_witness :
    ((∀ x ∈ c4pages, -1 ≤ x) ∧ c4pages.length < 2 ^ 4) ∧
    (BuddySystem.rebuildLists 4 c4pages = specRebuild 4 c4pages ∧
      covRuns (specRuns c4pages) = freeIdx c4pages 0 ∧
      List.Chain' (fun r r' : Nat × Nat => r.1 + r.2 < r'.1)
        (specRuns c4pages) ∧
      ∀ r ∈ specRuns c4pages,
        0 < r.2 ∧
        (∀ j, j ∈ bitsOf r.2 ↔ r.2.testBit j = true) ∧
        List.Chain' (· < ·) (bitsOf r.2) ∧
        (specChunks r.1 r.2).map (fun ch => ch.2) = bitsOf r.2 ∧
        covChunks (specChunks r.1 r.2) = List.range' r.1 r.2 ∧
        ∀ ch ∈ specChunks r.1 r.2, ch.2 < 4) :=
  ⟨⟨by decide, by decide⟩,
    C4_rebuild_placement 4 c4pages (by decide) (by decide)⟩
